import Mathlib

/-!
# Intrusive reference-counted smart pointer (`realm/util/bind_ptr.hpp`)

A shallow embedding of `realm::util::bind_ptr<T>` together with the non-atomic counted base
`realm::util::RefCountBase`, and proofs of its ownership properties.

* A raw reference `T*` is an address (`Nat`), the address `0` being `nullptr`.
* A target is a `RefCountBase`: its `unsigned long m_ref_count` (arithmetic modulo `2 ^ 64`) and
  an instrumentation counter recording how often `delete this` has run on it.
* Handle objects (`bind_ptr`, one field `m_ptr`) live in a store and are named by their index;
  temporaries of the C++ expressions are local values.
* Every call of `RefCountBase::bind_ptr` / `RefCountBase::unbind_ptr` is appended to a call log.
-/

namespace realm.util

/-- Raw reference `T*`: an address, with `0` for `nullptr`. -/
abbrev Ptr := Nat

/-- The null raw reference. -/
def nullptr : Ptr := 0

/-- Number of values of `unsigned long` (LP64): counter arithmetic is modulo this. -/
def ULONG_RANGE : Nat := 2 ^ 64

/-- Target object `class RefCountBase`: the field `mutable unsigned long m_ref_count`, and an
instrumentation counter `deleted` of how many times `delete this` has been executed on it. -/
structure RefCountBase where
  m_ref_count : Nat
  deleted : Nat
deriving DecidableEq

/-- Instrumentation: one entry per call of a counting hook on a target. -/
inductive Call where
  | bind_ptr (target : Ptr)
  | unbind_ptr (target : Ptr)
deriving DecidableEq

/-- Handle object `class bind_ptr<T>`: its single data member `T* m_ptr`. -/
structure bind_ptr where
  m_ptr : Ptr
deriving DecidableEq

/-- Program state: the targets by address, the log of counting calls (oldest first), and the
store of handle objects (`none` marks storage whose handle has been destroyed). -/
structure State where
  obj : Ptr → RefCountBase
  calls : List Call
  handles : List (Option bind_ptr)

/-- A target as left by `RefCountBase() noexcept: m_ref_count(0) {}`, never deleted. -/
def fresh : RefCountBase := { m_ref_count := 0, deleted := 0 }

/-- Initial state: every address holds a fresh target, no call was made, no handle exists. -/
def State.init : State := { obj := fun _ => fresh, calls := [], handles := [] }

/-- The target at `t` has not been deleted. -/
def State.alive (s : State) (t : Ptr) : Bool := (s.obj t).deleted == 0

/-- Current value of `m_ref_count` of the target at `t`. -/
def State.count (s : State) (t : Ptr) : Nat := (s.obj t).m_ref_count

/-- Overwrite the target stored at address `t`. -/
def State.setObj (s : State) (t : Ptr) (o : RefCountBase) : State :=
  { s with obj := fun q => if q = t then o else s.obj q }

/-- Append one entry to the call log. -/
def State.record (s : State) (c : Call) : State :=
  { s with calls := s.calls ++ [c] }

/-- Handle `h` is a constructed, not yet destroyed handle object. -/
def State.isHandle (s : State) (h : Nat) : Bool :=
  match s.handles[h]? with
  | some (some _) => true
  | _ => false

/-- Read the data member `m_ptr` of the handle object `h`. -/
def State.load (s : State) (h : Nat) : Ptr :=
  match s.handles[h]? with
  | some (some b) => b.m_ptr
  | _ => nullptr

/-- Write the data member `m_ptr` of the handle object `h`. -/
def State.store (s : State) (h : Nat) (p : Ptr) : State :=
  { s with handles := s.handles.set h (some { m_ptr := p }) }

/-- Storage for a newly constructed handle object; its name is the old `handles.length`. -/
def State.emplace (s : State) (b : bind_ptr) : State :=
  { s with handles := s.handles ++ [some b] }

/-- End of lifetime of the handle object `h`: its storage no longer holds a handle. -/
def State.discard (s : State) (h : Nat) : State :=
  { s with handles := s.handles.set h none }

/-- Number of handle objects whose `m_ptr` is `t`. -/
def State.holders (s : State) (t : Ptr) : Nat :=
  s.handles.countP (fun o => decide (o = some { m_ptr := t }))

/-- Number of handle objects in the store. -/
def State.numHandles (s : State) : Nat :=
  (s.handles.filter Option.isSome).length

namespace RefCountBase

/-- Source `void bind_ptr() const noexcept { ++m_ref_count; }`. -/
def bind_ptr (s : State) (self : Ptr) : State :=
  let o := s.obj self
  (s.setObj self { o with m_ref_count := (o.m_ref_count + 1) % ULONG_RANGE }).record
    (Call.bind_ptr self)

/-- Source `void unbind_ptr() const noexcept { if (--m_ref_count == 0) delete this; }`. -/
def unbind_ptr (s : State) (self : Ptr) : State :=
  let o := s.obj self
  let c := (o.m_ref_count + (ULONG_RANGE - 1)) % ULONG_RANGE
  let o1 : RefCountBase := { o with m_ref_count := c }
  let o2 : RefCountBase := if c = 0 then { o1 with deleted := o1.deleted + 1 } else o1
  (s.setObj self o2).record (Call.unbind_ptr self)

end RefCountBase

namespace bind_ptr

/-- Source `void bind(T* p) noexcept { if (p) p->bind_ptr(); m_ptr = p; }`, run on a handle
under construction; the constructed object is returned with the state. -/
def bind (s : State) (p : Ptr) : State × bind_ptr :=
  let s1 := if p ≠ nullptr then RefCountBase.bind_ptr s p else s
  (s1, { m_ptr := p })

/-- Source `void unbind() noexcept { if (m_ptr) m_ptr->unbind_ptr(); }`. -/
def unbind (s : State) (self : bind_ptr) : State :=
  if self.m_ptr ≠ nullptr then RefCountBase.unbind_ptr s self.m_ptr else s

/-- Source `T* release() noexcept { T* const p = m_ptr; m_ptr = nullptr; return p; }` on the
stored handle `self`. -/
def release (s : State) (self : Nat) : State × Ptr :=
  let p := s.load self
  (s.store self nullptr, p)

/-- Source `T* get() const noexcept { return m_ptr; }`. -/
def get (self : bind_ptr) : Ptr := self.m_ptr

/-- Source `explicit operator bool() const noexcept { return m_ptr != 0; }`. -/
def toBool (self : bind_ptr) : Bool := decide (self.m_ptr ≠ 0)

/-- Source `void swap(bind_ptr& p) noexcept { std::swap(m_ptr, p.m_ptr); }` between two stored
handles (which may be the same object). -/
def swap (s : State) (self p : Nat) : State :=
  let tmp := s.load self
  let s1 := s.store self (s.load p)
  s1.store p tmp

/-- Free function `friend void swap(bind_ptr& a, bind_ptr& b) noexcept { a.swap(b); }`. -/
def swap_friend (s : State) (a b : Nat) : State := swap s a b

/-- The member `swap` called on a temporary with the stored handle `p` as argument, as in
`bind_ptr(...).swap(*this)`; returns the temporary as it is afterwards. -/
def swap_temporary (s : State) (tmp : bind_ptr) (p : Nat) : State × bind_ptr :=
  let old := s.load p
  (s.store p tmp.m_ptr, { m_ptr := old })

/-- Source `constexpr bind_ptr() noexcept: m_ptr(nullptr) {}` for a new stored handle. -/
def ctor_default (s : State) : State :=
  s.emplace { m_ptr := nullptr }

/-- Source `explicit bind_ptr(T* p) noexcept { bind(p); }` for a new stored handle. -/
def ctor_raw (s : State) (p : Ptr) : State :=
  let r := bind s p
  r.1.emplace r.2

/-- Source `bind_ptr(const bind_ptr& p) noexcept { bind(p.m_ptr); }` for a new stored handle. -/
def ctor_copy (s : State) (p : Nat) : State :=
  let r := bind s (s.load p)
  r.1.emplace r.2

/-- Source `bind_ptr(bind_ptr&& p) noexcept: m_ptr(p.release()) {}` for a new stored handle. -/
def ctor_move (s : State) (p : Nat) : State :=
  let r := release s p
  r.1.emplace { m_ptr := r.2 }

/-- Source `bind_ptr(bind_ptr* p, move_tag) noexcept: m_ptr(p->release()) {}`. -/
def ctor_move_tag (s : State) (p : Nat) : State :=
  let r := release s p
  r.1.emplace { m_ptr := r.2 }

/-- Source `friend bind_ptr move(bind_ptr& p) noexcept { return bind_ptr(&p, move_tag()); }`;
the returned handle is the new stored handle. -/
def move (s : State) (p : Nat) : State := ctor_move_tag s p

/-- Source `~bind_ptr() noexcept { unbind(); }` on the stored handle `self`. -/
def dtor (s : State) (self : Nat) : State :=
  (unbind s { m_ptr := s.load self }).discard self

/-- Source `bind_ptr& operator=(const bind_ptr& p) noexcept { bind_ptr(p).swap(*this); return *this; }`:
copy-construct a temporary, swap it with `*this`, destroy the temporary. -/
def assign_copy (s : State) (self p : Nat) : State :=
  let r := bind s (s.load p)
  let r2 := swap_temporary r.1 r.2 self
  unbind r2.1 r2.2

/-- Source `bind_ptr& operator=(bind_ptr&& p) noexcept { bind_ptr(std::move(p)).swap(*this); return *this; }`:
move-construct a temporary, swap it with `*this`, destroy the temporary. -/
def assign_move (s : State) (self p : Nat) : State :=
  let r := release s p
  let r2 := swap_temporary r.1 { m_ptr := r.2 } self
  unbind r2.1 r2.2

/-- Source `void reset() noexcept { bind_ptr().swap(*this); }`. -/
def reset (s : State) (self : Nat) : State :=
  let r2 := swap_temporary s { m_ptr := nullptr } self
  unbind r2.1 r2.2

/-- Source `void reset(T* p) noexcept { bind_ptr(p).swap(*this); }`. -/
def reset_raw (s : State) (self : Nat) (p : Ptr) : State :=
  let r := bind s p
  let r2 := swap_temporary r.1 r.2 self
  unbind r2.1 r2.2

/-- Member `operator==(const bind_ptr<U>& p)`: `return m_ptr == p.m_ptr;`. -/
def eq (self p : bind_ptr) : Bool := decide (self.m_ptr = p.m_ptr)
/-- Member `operator==(U* p)`: `return m_ptr == p;`. -/
def eq_raw (self : bind_ptr) (p : Ptr) : Bool := decide (self.m_ptr = p)
/-- Member `operator!=(const bind_ptr<U>& p)`: `return m_ptr != p.m_ptr;`. -/
def ne (self p : bind_ptr) : Bool := decide (self.m_ptr ≠ p.m_ptr)
/-- Member `operator!=(U* p)`: `return m_ptr != p;`. -/
def ne_raw (self : bind_ptr) (p : Ptr) : Bool := decide (self.m_ptr ≠ p)
/-- Member `operator<(const bind_ptr<U>& p)`: `return m_ptr < p.m_ptr;`. -/
def lt (self p : bind_ptr) : Bool := decide (self.m_ptr < p.m_ptr)
/-- Member `operator<(U* p)`: `return m_ptr < p;`. -/
def lt_raw (self : bind_ptr) (p : Ptr) : Bool := decide (self.m_ptr < p)
/-- Member `operator>(const bind_ptr<U>& p)`: `return m_ptr > p.m_ptr;`. -/
def gt (self p : bind_ptr) : Bool := decide (self.m_ptr > p.m_ptr)
/-- Member `operator>(U* p)`: `return m_ptr > p;`. -/
def gt_raw (self : bind_ptr) (p : Ptr) : Bool := decide (self.m_ptr > p)
/-- Member `operator<=(const bind_ptr<U>& p)`: `return m_ptr <= p.m_ptr;`. -/
def le (self p : bind_ptr) : Bool := decide (self.m_ptr ≤ p.m_ptr)
/-- Member `operator<=(U* p)`: `return m_ptr <= p;`. -/
def le_raw (self : bind_ptr) (p : Ptr) : Bool := decide (self.m_ptr ≤ p)
/-- Member `operator>=(const bind_ptr<U>& p)`: `return m_ptr >= p.m_ptr;`. -/
def ge (self p : bind_ptr) : Bool := decide (self.m_ptr ≥ p.m_ptr)
/-- Member `operator>=(U* p)`: `return m_ptr >= p;`. -/
def ge_raw (self : bind_ptr) (p : Ptr) : Bool := decide (self.m_ptr ≥ p)

end bind_ptr

/-- Free `operator==(T* a, const bind_ptr<U>& b)`: `return b == a;`. -/
def raw_eq (a : Ptr) (b : bind_ptr) : Bool := b.eq_raw a
/-- Free `operator!=(T* a, const bind_ptr<U>& b)`: `return b != a;`. -/
def raw_ne (a : Ptr) (b : bind_ptr) : Bool := b.ne_raw a
/-- Free `operator<(T* a, const bind_ptr<U>& b)`: `return b > a;`. -/
def raw_lt (a : Ptr) (b : bind_ptr) : Bool := b.gt_raw a
/-- Free `operator>(T* a, const bind_ptr<U>& b)`: `return b < a;`. -/
def raw_gt (a : Ptr) (b : bind_ptr) : Bool := b.lt_raw a
/-- Free `operator<=(T* a, const bind_ptr<U>& b)`: `return b >= a;`. -/
def raw_le (a : Ptr) (b : bind_ptr) : Bool := b.ge_raw a
/-- Free `operator>=(T* a, const bind_ptr<U>& b)`: `return b <= a;`. -/
def raw_ge (a : Ptr) (b : bind_ptr) : Bool := b.le_raw a

/-- The call `p.get()` on the stored handle `p`. -/
def State.get (s : State) (p : Nat) : Ptr := bind_ptr.get { m_ptr := s.load p }

/-- Placement form of the default constructor: `new (&p) bind_ptr()` on the storage `p`. -/
def bind_ptr.ctor_default_at (s : State) (p : Nat) : State :=
  s.store p nullptr

/-- The wording of the specification for `reset()`: destroy the handle, then default-construct
a handle in its place. -/
def spec_destroy_then_default_construct (s : State) (p : Nat) : State :=
  bind_ptr.ctor_default_at (bind_ptr.dtor s p) p

/-- The wording of the specification for `reset(raw reference)`: release the current reference,
then behave as construct-from-raw-reference with the new one. -/
def spec_release_then_construct (s : State) (self : Nat) (p : Ptr) : State :=
  let s1 := bind_ptr.unbind s { m_ptr := s.load self }
  let r := bind_ptr.bind s1 p
  r.1.store self r.2.m_ptr

/-- Counting calls made by one acquire of the raw reference `p` (none for `nullptr`). -/
def acquireCalls (p : Ptr) : List Call :=
  if p ≠ nullptr then [Call.bind_ptr p] else []

/-- Counting calls made by one release of the raw reference `p` (none for `nullptr`). -/
def releaseCalls (p : Ptr) : List Call :=
  if p ≠ nullptr then [Call.unbind_ptr p] else []

/-- Make `k` further copies of the stored handle `src`, by the copy constructor. -/
def copies (s : State) (src : Nat) : Nat → State
  | 0 => s
  | k + 1 => bind_ptr.ctor_copy (copies s src k) src

/-- One handle constructed from the raw reference `t`, then `n - 1` copies of it: the handles
are named `s.handles.length`, ..., `s.handles.length + n - 1`. -/
def share (s : State) (t : Ptr) (n : Nat) : State :=
  copies (bind_ptr.ctor_raw s t) s.handles.length (n - 1)

/-- Destroy the listed stored handles, in the listed order. -/
def destroyAll (s : State) : List Nat → State
  | [] => s
  | h :: hs => destroyAll (bind_ptr.dtor s h) hs

/-- Ownership discipline with outstanding temporaries `tmps` (references held by handle objects
outside the store): every counter is in range, no target was deleted twice, a live target is
counted once per handle object holding it, and a deleted target is held by none. -/
def State.InvT (s : State) (tmps : List Ptr) : Prop :=
  ∀ t : Ptr, t ≠ nullptr →
    s.count t < ULONG_RANGE ∧ (s.obj t).deleted ≤ 1 ∧
    (s.alive t = true → s.count t = s.holders t + tmps.count t) ∧
    (s.alive t = false → s.holders t + tmps.count t = 0)

/-- Ownership discipline of a state between operations (no temporaries outstanding). -/
def State.Inv (s : State) : Prop := s.InvT []

/-- The handle operations. Operands of type `Nat` name stored handles, operands of type `Ptr`
are raw references. -/
inductive Op where
  | ctor_default
  | ctor_raw (p : Ptr)
  | ctor_copy (p : Nat)
  | assign_copy (self p : Nat)
  | ctor_move (p : Nat)
  | assign_move (self p : Nat)
  | move (p : Nat)
  | reset (self : Nat)
  | reset_raw (self : Nat) (p : Ptr)
  | swap (self p : Nat)
  | swap_friend (a b : Nat)
  | dtor (self : Nat)
deriving DecidableEq

/-- Effect of a handle operation on the state. -/
def Op.run (s : State) : Op → State
  | .ctor_default => bind_ptr.ctor_default s
  | .ctor_raw p => bind_ptr.ctor_raw s p
  | .ctor_copy p => bind_ptr.ctor_copy s p
  | .assign_copy self p => bind_ptr.assign_copy s self p
  | .ctor_move p => bind_ptr.ctor_move s p
  | .assign_move self p => bind_ptr.assign_move s self p
  | .move p => bind_ptr.move s p
  | .reset self => bind_ptr.reset s self
  | .reset_raw self p => bind_ptr.reset_raw s self p
  | .swap self p => bind_ptr.swap s self p
  | .swap_friend a b => bind_ptr.swap_friend s a b
  | .dtor self => bind_ptr.dtor s self

/-- The operation constructs a handle object, named or temporary. -/
def Op.constructs : Op → Bool
  | .swap _ _ => false
  | .swap_friend _ _ => false
  | .dtor _ => false
  | _ => true

/-- The handle operands of the operation exist, and its raw-reference operand is null or refers
to a live target. -/
def Op.operandsOk (s : State) : Op → Bool
  | .ctor_default => true
  | .ctor_raw p => p == nullptr || s.alive p
  | .ctor_copy p => s.isHandle p
  | .assign_copy self p => s.isHandle self && s.isHandle p
  | .ctor_move p => s.isHandle p
  | .assign_move self p => s.isHandle self && s.isHandle p
  | .move p => s.isHandle p
  | .reset self => s.isHandle self
  | .reset_raw self p => s.isHandle self && (p == nullptr || s.alive p)
  | .swap self p => s.isHandle self && s.isHandle p
  | .swap_friend a b => s.isHandle a && s.isHandle b
  | .dtor self => s.isHandle self

/-- Precondition of an operation: well-formed operands, and, when it constructs a handle
object, room for it: handle objects occupy distinct storage of a 64-bit address space, so fewer
than `2 ^ 64 - 1` of them exist before another is constructed. -/
def Op.ok (s : State) (op : Op) : Bool :=
  op.operandsOk s && (!op.constructs || decide (s.numHandles + 1 < ULONG_RANGE))

/-- States reachable from fresh targets and no handles by the handle operations alone. -/
inductive Reachable : State → Prop where
  | init : Reachable State.init
  | step (s : State) (op : Op) : Reachable s → op.ok s = true → Reachable (op.run s)

/-- Raw references held by the non-empty handles of the store, with repetition. -/
def State.heldRefs (s : State) : List Ptr :=
  (s.handles.filterMap (fun o => o.map bind_ptr.m_ptr)).filter (fun p => decide (p ≠ nullptr))

/-- The conversion `explicit operator bool()` applied to the stored handle `p`. -/
def State.toBool (s : State) (p : Nat) : Bool := bind_ptr.toBool { m_ptr := s.load p }

/-- The stored handles an operation takes as operands. -/
def Op.operandHandles : Op → List Nat
  | .ctor_default => []
  | .ctor_raw _ => []
  | .ctor_copy p => [p]
  | .assign_copy self p => [self, p]
  | .ctor_move p => [p]
  | .assign_move self p => [self, p]
  | .move p => [p]
  | .reset self => [self]
  | .reset_raw self _ => [self]
  | .swap self p => [self, p]
  | .swap_friend a b => [a, b]
  | .dtor self => [self]

/-- The raw references an operation is given: those held by its operand handles and its
raw-reference argument. -/
def Op.operandTargets (s : State) : Op → List Ptr
  | .ctor_default => []
  | .ctor_raw p => [p]
  | .ctor_copy p => [s.load p]
  | .assign_copy self p => [s.load self, s.load p]
  | .ctor_move p => [s.load p]
  | .assign_move self p => [s.load self, s.load p]
  | .move p => [s.load p]
  | .reset self => [s.load self]
  | .reset_raw self p => [s.load self, p]
  | .swap self p => [s.load self, s.load p]
  | .swap_friend a b => [s.load a, s.load b]
  | .dtor self => [s.load self]

/-- The raw reference an operation passes to `bind` (`nullptr` when it binds nothing). -/
def Op.acquired (s : State) : Op → Ptr
  | .ctor_raw p => p
  | .ctor_copy p => s.load p
  | .assign_copy _ p => s.load p
  | .reset_raw _ p => p
  | _ => nullptr

/-- The raw reference held by the handle object on which an operation runs `unbind`
(`nullptr` when it unbinds nothing, or unbinds an empty temporary). -/
def Op.released (s : State) : Op → Ptr
  | .assign_copy self _ => s.load self
  | .assign_move self p => if self = p then nullptr else s.load self
  | .reset self => s.load self
  | .reset_raw self _ => s.load self
  | .dtor self => s.load self
  | _ => nullptr

/-- Target object `class AtomicRefCountBase`: the field
`mutable std::atomic<unsigned long> m_ref_count`, and an instrumentation counter `deleted` of
how many times `delete this` has been executed on it. -/
structure AtomicRefCountBase where
  m_ref_count : Nat
  deleted : Nat
deriving DecidableEq

namespace AtomicRefCountBase

/-- A target as left by `AtomicRefCountBase() noexcept: m_ref_count(0) {}`. -/
def fresh : AtomicRefCountBase := { m_ref_count := 0, deleted := 0 }

/-- Source `void bind_ptr() const noexcept { ++m_ref_count; }`: one atomic read-modify-write. -/
def bind_ptr (self : AtomicRefCountBase) : AtomicRefCountBase :=
  { self with m_ref_count := (self.m_ref_count + 1) % ULONG_RANGE }

/-- The atomic pre-decrement `--m_ref_count` of `unbind_ptr`: one indivisible read-modify-write
(`std::memory_order_seq_cst`), returning the decremented value. -/
def pre_decrement (self : AtomicRefCountBase) : AtomicRefCountBase × Nat :=
  let c := (self.m_ref_count + (ULONG_RANGE - 1)) % ULONG_RANGE
  ({ self with m_ref_count := c }, c)

/-- The statement `delete this` of `unbind_ptr`. -/
def delete_this (self : AtomicRefCountBase) : AtomicRefCountBase :=
  { self with deleted := self.deleted + 1 }

/-- Source `void unbind_ptr() const noexcept { if (--m_ref_count == 0) delete this; }`, run by
one thread without another thread acting in between. -/
def unbind_ptr (self : AtomicRefCountBase) : AtomicRefCountBase :=
  let r := pre_decrement self
  if r.2 = 0 then delete_this r.1 else r.1

end AtomicRefCountBase

/-- Position of a thread inside its call of `AtomicRefCountBase::unbind_ptr`. -/
inductive Pc where
  | entry
  | decremented
  | returned
deriving DecidableEq

/-- How far a thread has got: 0 at entry, 1 after its pre-decrement, 2 after returning. -/
def Pc.rank : Pc → Nat
  | Pc.entry => 0
  | Pc.decremented => 1
  | Pc.returned => 2

/-- One thread calling `unbind_ptr` on the shared target: its position, the value its
pre-decrement returned, and whether it has executed `delete this`. -/
structure UnbindCall where
  pc : Pc
  observed : Nat
  deleter : Bool
deriving DecidableEq

/-- The thread has executed its pre-decrement. -/
def UnbindCall.hasDecremented (c : UnbindCall) : Bool := decide (c.pc ≠ Pc.entry)

/-- The thread has executed its pre-decrement and it returned zero. -/
def UnbindCall.sawZero (c : UnbindCall) : Bool := c.hasDecremented && decide (c.observed = 0)

/-- A shared target and the threads each making one call of `unbind_ptr` on it. -/
structure AtomicSystem where
  target : AtomicRefCountBase
  threads : List UnbindCall

namespace AtomicSystem

/-- Thread `i` takes its next step of `if (--m_ref_count == 0) delete this;`: first the atomic
pre-decrement, then the test of the value it returned and, if that is zero, `delete this`.
A thread that has returned, or is not there, does nothing. -/
def step (sys : AtomicSystem) (i : Nat) : AtomicSystem :=
  match sys.threads[i]? with
  | none => sys
  | some c =>
    match c.pc with
    | Pc.entry =>
      let r := sys.target.pre_decrement
      { target := r.1,
        threads := sys.threads.set i { c with pc := Pc.decremented, observed := r.2 } }
    | Pc.decremented =>
      if c.observed = 0 then
        { target := sys.target.delete_this,
          threads := sys.threads.set i { c with pc := Pc.returned, deleter := true } }
      else
        { sys with threads := sys.threads.set i { c with pc := Pc.returned } }
    | Pc.returned => sys

/-- Run the threads in the order given by the schedule (one step per entry). -/
def run (sys : AtomicSystem) : List Nat → AtomicSystem
  | [] => sys
  | i :: rest => run (step sys i) rest

/-- A target with count `n` and `n` threads, each about to call `unbind_ptr` on it. -/
def start (n : Nat) : AtomicSystem :=
  { target := { m_ref_count := n, deleted := 0 },
    threads := List.replicate n { pc := Pc.entry, observed := 0, deleter := false } }

/-- Every thread has returned from its call. -/
def allReturned (sys : AtomicSystem) : Bool :=
  sys.threads.all (fun c => decide (c.pc = Pc.returned))

/-- Number of threads that have executed their pre-decrement. -/
def decrementedCount (sys : AtomicSystem) : Nat :=
  sys.threads.countP UnbindCall.hasDecremented

/-- Number of threads whose pre-decrement returned zero. -/
def zeroObservers (sys : AtomicSystem) : Nat :=
  sys.threads.countP UnbindCall.sawZero

/-- Number of threads that have executed `delete this`. -/
def deleters (sys : AtomicSystem) : Nat :=
  sys.threads.countP (fun c => c.deleter)

/-- Invariant of the interleaved calls on a target that started with count `n` and `n`
threads: the counter plus the pre-decrements done is `n`; a pre-decrement has returned zero
exactly if the counter is zero, and then only one has; every deletion was executed by a thread
that has returned and whose pre-decrement returned zero. -/
def Inv (n : Nat) (sys : AtomicSystem) : Prop :=
  sys.threads.length = n ∧
  sys.target.m_ref_count + sys.decrementedCount = n ∧
  sys.zeroObservers = (if sys.target.m_ref_count = 0 then 1 else 0) ∧
  sys.target.deleted = sys.deleters ∧
  ∀ c ∈ sys.threads, (c.deleter = true ↔ (c.pc = Pc.returned ∧ c.observed = 0))

end AtomicSystem

open bind_ptr

/-! ## Store lemmas -/

theorem State.isHandle_lt (s : State) (h : Nat) (hh : s.isHandle h = true) :
    h < s.handles.length := by
  unfold State.isHandle at hh
  by_contra hc
  have hnone : s.handles[h]? = none := List.getElem?_eq_none (by omega)
  simp [hnone] at hh

theorem State.load_store_same (s : State) (h : Nat) (p : Ptr) (hh : h < s.handles.length) :
    (s.store h p).load h = p := by
  simp [State.load, State.store, hh]

theorem State.load_store_other (s : State) (h k : Nat) (p : Ptr) (hk : h ≠ k) :
    (s.store h p).load k = s.load k := by
  simp [State.load, State.store, List.getElem?_set_ne hk]

theorem State.load_emplace_new (s : State) (b : bind_ptr) :
    (s.emplace b).load s.handles.length = b.m_ptr := by
  simp [State.load, State.emplace]

theorem State.load_emplace_old (s : State) (b : bind_ptr) (h : Nat) (hh : h < s.handles.length) :
    (s.emplace b).load h = s.load h := by
  simp [State.load, State.emplace, List.getElem?_append_left hh]

theorem State.load_discard_other (s : State) (h k : Nat) (hk : h ≠ k) :
    (s.discard h).load k = s.load k := by
  simp [State.load, State.discard, List.getElem?_set_ne hk]

theorem State.isHandle_discard_other (s : State) (h k : Nat) (hk : h ≠ k) :
    (s.discard h).isHandle k = s.isHandle k := by
  simp [State.isHandle, State.discard, List.getElem?_set_ne hk]

theorem State.isHandle_of_handles_eq {s s1 : State} (h : s1.handles = s.handles) (k : Nat) :
    s1.isHandle k = s.isHandle k := by
  simp [State.isHandle, h]

theorem State.load_of_handles_eq {s s1 : State} (h : s1.handles = s.handles) (k : Nat) :
    s1.load k = s.load k := by
  simp [State.load, h]

theorem State.get_eq_load (s : State) (k : Nat) : s.get k = s.load k := rfl

theorem State.isHandle_emplace_new (s : State) (b : bind_ptr) :
    (s.emplace b).isHandle s.handles.length = true := by
  simp [State.isHandle, State.emplace]

theorem State.isHandle_store (s : State) (h k : Nat) (p : Ptr) (hk : s.isHandle k = true) :
    (s.store h p).isHandle k = true := by
  have hlt := s.isHandle_lt k hk
  by_cases e : h = k
  · subst e
    simp [State.isHandle, State.store, hlt]
  · simpa [State.isHandle, State.store, List.getElem?_set_ne e] using hk

/-- Effect of the acquire hook on the targets. -/
theorem RefCountBase.bind_ptr_obj (s : State) (t q : Ptr) :
    (RefCountBase.bind_ptr s t).obj q =
      if q = t then { m_ref_count := (s.count t + 1) % ULONG_RANGE, deleted := (s.obj t).deleted }
      else s.obj q := by
  simp [RefCountBase.bind_ptr, State.setObj, State.record, State.count]

/-- Effect of the release hook on the targets. -/
theorem RefCountBase.unbind_ptr_obj (s : State) (t q : Ptr) :
    (RefCountBase.unbind_ptr s t).obj q =
      if q = t then
        { m_ref_count := (s.count t + (ULONG_RANGE - 1)) % ULONG_RANGE,
          deleted := if (s.count t + (ULONG_RANGE - 1)) % ULONG_RANGE = 0
            then (s.obj t).deleted + 1 else (s.obj t).deleted }
      else s.obj q := by
  by_cases hq : q = t <;>
    by_cases hc : ((s.obj t).m_ref_count + (ULONG_RANGE - 1)) % ULONG_RANGE = 0 <;>
    simp [RefCountBase.unbind_ptr, State.setObj, State.record, State.count, hq, hc]

theorem RefCountBase.bind_ptr_calls (s : State) (t : Ptr) :
    (RefCountBase.bind_ptr s t).calls = s.calls ++ [Call.bind_ptr t] := rfl

theorem RefCountBase.unbind_ptr_calls (s : State) (t : Ptr) :
    (RefCountBase.unbind_ptr s t).calls = s.calls ++ [Call.unbind_ptr t] := rfl

theorem RefCountBase.bind_ptr_handles (s : State) (t : Ptr) :
    (RefCountBase.bind_ptr s t).handles = s.handles := rfl

theorem RefCountBase.unbind_ptr_handles (s : State) (t : Ptr) :
    (RefCountBase.unbind_ptr s t).handles = s.handles := rfl

theorem bind_ptr.bind_handles (s : State) (p : Ptr) : (bind s p).1.handles = s.handles := by
  unfold bind
  split <;> rfl

theorem bind_ptr.unbind_handles (s : State) (b : bind_ptr) : (unbind s b).handles = s.handles := by
  unfold unbind
  split <;> rfl

theorem bind_ptr.bind_calls (s : State) (p : Ptr) :
    (bind s p).1.calls = s.calls ++ acquireCalls p := by
  unfold bind acquireCalls
  split <;> simp [RefCountBase.bind_ptr_calls]

theorem bind_ptr.unbind_calls (s : State) (b : bind_ptr) :
    (unbind s b).calls = s.calls ++ releaseCalls b.m_ptr := by
  unfold unbind releaseCalls
  split <;> simp [RefCountBase.unbind_ptr_calls]

theorem bind_ptr.bind_of_ne (s : State) (p : Ptr) (hp : p ≠ nullptr) :
    (bind_ptr.bind s p).1 = RefCountBase.bind_ptr s p := by
  simp [bind_ptr.bind, hp]

theorem bind_ptr.bind_of_eq (s : State) (p : Ptr) (hp : p = nullptr) :
    (bind_ptr.bind s p).1 = s := by
  simp [bind_ptr.bind, hp]

theorem bind_ptr.unbind_of_ne (s : State) (b : bind_ptr) (hp : b.m_ptr ≠ nullptr) :
    unbind s b = RefCountBase.unbind_ptr s b.m_ptr := by
  simp [unbind, hp]

theorem bind_ptr.unbind_of_eq (s : State) (b : bind_ptr) (hp : b.m_ptr = nullptr) :
    unbind s b = s := by
  simp [unbind, hp]

/-- The release hook does not look at the handle store. -/
theorem bind_ptr.unbind_with_handles (s : State) (b : bind_ptr) (hs : List (Option bind_ptr)) :
    unbind { s with handles := hs } b = { unbind s b with handles := hs } := by
  unfold unbind
  split <;> rfl

/-- The acquire hook does not look at the handle store. -/
theorem bind_ptr.bind_with_handles (s : State) (p : Ptr) (hs : List (Option bind_ptr)) :
    (bind { s with handles := hs } p).1 = { (bind s p).1 with handles := hs } := by
  unfold bind
  split <;> rfl

/-! ## Comparison operators -/

/-- C9: `a == r` iff `a.get() == r`; `a < b` iff `a.get() < b.get()`; each free-function form
with the raw reference on the left returns the comparison of `r` with `a.get()` by the same
operator, and agrees with the member form with the operands exchanged. -/
theorem C9_comparisons_follow_held_reference (a b : bind_ptr) (r : Ptr) :
    (a.eq_raw r = true ↔ a.get = r) ∧
    (a.lt b = true ↔ a.get < b.get) ∧
    raw_eq r a = decide (r = a.get) ∧ raw_ne r a = decide (r ≠ a.get) ∧
    raw_lt r a = decide (r < a.get) ∧ raw_gt r a = decide (r > a.get) ∧
    raw_le r a = decide (r ≤ a.get) ∧ raw_ge r a = decide (r ≥ a.get) ∧
    raw_eq r a = a.eq_raw r ∧ raw_ne r a = a.ne_raw r ∧
    raw_lt r a = a.gt_raw r ∧ raw_gt r a = a.lt_raw r ∧
    raw_le r a = a.ge_raw r ∧ raw_ge r a = a.le_raw r := by
  refine ⟨by simp [eq_raw, bind_ptr.get], by simp [bind_ptr.lt, bind_ptr.get], ?_, ?_, ?_, ?_, ?_, ?_,
    rfl, rfl, rfl, rfl, rfl, rfl⟩
  · simp only [raw_eq, eq_raw, bind_ptr.get, decide_eq_decide]; exact eq_comm
  · simp only [raw_ne, ne_raw, bind_ptr.get, decide_eq_decide]; exact ne_comm
  · simp [raw_lt, gt_raw, bind_ptr.get]
  · simp [raw_gt, lt_raw, bind_ptr.get]
  · simp [raw_le, ge_raw, bind_ptr.get]
  · simp [raw_ge, le_raw, bind_ptr.get]

/-- Consistency of the six comparisons of two addresses, as Boolean results. -/
theorem rel_consistent (x y : Nat) :
    (decide (x ≠ y) = !decide (x = y)) ∧ (decide (x > y) = decide (y < x)) ∧
    (decide (x ≤ y) = (decide (x < y) || decide (x = y))) ∧
    (decide (x ≥ y) = !decide (x < y)) ∧
    ((decide (x < y) = true ∧ decide (x = y) = false ∧ decide (x > y) = false) ∨
     (decide (x < y) = false ∧ decide (x = y) = true ∧ decide (x > y) = false) ∨
     (decide (x < y) = false ∧ decide (x = y) = false ∧ decide (x > y) = true)) := by
  rcases Nat.lt_trichotomy x y with h | h | h
  · have h1 : x ≠ y := Nat.ne_of_lt h
    have h2 : ¬ y < x := Nat.lt_asymm h
    have h3 : x ≤ y := Nat.le_of_lt h
    simp [h, h1, h2, h3]
  · subst h
    simp
  · have h1 : x ≠ y := Nat.ne_of_gt h
    have h2 : ¬ x < y := Nat.lt_asymm h
    have h3 : ¬ x ≤ y := Nat.not_le_of_gt h
    have h4 : y ≤ x := Nat.le_of_lt h
    simp [h, h1, h2, h3, h4]

/-- C10: the six relational operators, on two handles and on a handle against a raw reference,
are mutually consistent: `!=` is the negation of `==`, `a > b` is `b < a`, `<=` is `<` or `==`,
`>=` is the negation of `<`, exactly one of `<`, `==`, `>` holds, and handles holding the same
reference compare equal (the operators take no target content as input). -/
theorem C10_relational_operators_consistent (a b : bind_ptr) (r : Ptr) :
    (a.ne b = !a.eq b) ∧ (a.gt b = b.lt a) ∧ (a.le b = (a.lt b || a.eq b)) ∧
    (a.ge b = !a.lt b) ∧
    ((a.lt b = true ∧ a.eq b = false ∧ a.gt b = false) ∨
     (a.lt b = false ∧ a.eq b = true ∧ a.gt b = false) ∨
     (a.lt b = false ∧ a.eq b = false ∧ a.gt b = true)) ∧
    (a.get = b.get → a.eq b = true ∧ a.ne b = false ∧ a.lt b = false ∧ a.gt b = false ∧
      a.le b = true ∧ a.ge b = true) ∧
    (a.ne_raw r = !a.eq_raw r) ∧ (a.gt_raw r = raw_lt r a) ∧
    (a.le_raw r = (a.lt_raw r || a.eq_raw r)) ∧ (a.ge_raw r = !a.lt_raw r) ∧
    ((a.lt_raw r = true ∧ a.eq_raw r = false ∧ a.gt_raw r = false) ∨
     (a.lt_raw r = false ∧ a.eq_raw r = true ∧ a.gt_raw r = false) ∨
     (a.lt_raw r = false ∧ a.eq_raw r = false ∧ a.gt_raw r = true)) ∧
    (raw_ne r a = !raw_eq r a) ∧ (raw_gt r a = a.lt_raw r) ∧
    (raw_le r a = (raw_lt r a || raw_eq r a)) ∧ (raw_ge r a = !raw_lt r a) ∧
    ((raw_lt r a = true ∧ raw_eq r a = false ∧ raw_gt r a = false) ∨
     (raw_lt r a = false ∧ raw_eq r a = true ∧ raw_gt r a = false) ∨
     (raw_lt r a = false ∧ raw_eq r a = false ∧ raw_gt r a = true)) := by
  obtain ⟨x⟩ := a
  obtain ⟨y⟩ := b
  simp only [bind_ptr.ne, bind_ptr.eq, bind_ptr.gt, bind_ptr.lt, bind_ptr.le, bind_ptr.ge,
    ne_raw, eq_raw, gt_raw, lt_raw, le_raw, ge_raw, raw_ne, raw_eq, raw_gt, raw_lt, raw_le,
    raw_ge, bind_ptr.get]
  obtain ⟨a1, a2, a3, a4, a5⟩ := rel_consistent x y
  obtain ⟨b1, b2, b3, b4, b5⟩ := rel_consistent x r
  obtain ⟨c1, c2, c3, c4, c5⟩ := rel_consistent r x
  refine ⟨a1, trivial, a3, a4, a5, ?_, b1, trivial, b3, b4, b5, b1, trivial, ?_, c4, ?_⟩
  · intro h
    subst h
    simp
  · rw [decide_eq_decide.mpr (eq_comm : x = r ↔ r = x)]
    exact c3
  · rw [decide_eq_decide.mpr (eq_comm : x = r ↔ r = x)]
    exact c5

/-! ## Counting the holders of a target -/

theorem State.lookup_of_isHandle (s : State) (h : Nat) (hh : s.isHandle h = true) :
    s.handles[h]? = some (some { m_ptr := s.load h }) := by
  unfold State.isHandle at hh
  unfold State.load
  rcases hx : s.handles[h]? with _ | (_ | m)
  · simp [hx] at hh
  · simp [hx] at hh
  · rfl

/-- Replacing one element of a list: the elements satisfying `q`, counted additively. -/
theorem countP_set_add {α : Type} (q : α → Bool) (l : List α) (i : Nat) (old a : α)
    (hi : l[i]? = some old) :
    (l.set i a).countP q + (if q old = true then 1 else 0)
      = l.countP q + (if q a = true then 1 else 0) := by
  induction l generalizing i with
  | nil => simp at hi
  | cons x l ih =>
    cases i with
    | zero =>
      simp at hi
      subst hi
      simp [List.countP_cons]
      omega
    | succ i =>
      simp at hi
      have h := ih i hi
      simp [List.countP_cons]
      omega

theorem State.holders_store (s : State) (h : Nat) (p t : Ptr) (hh : s.isHandle h = true) :
    (s.store h p).holders t + (if s.load h = t then 1 else 0)
      = s.holders t + (if p = t then 1 else 0) := by
  have hx := s.lookup_of_isHandle h hh
  have hc := countP_set_add (fun o => decide (o = some ({ m_ptr := t } : bind_ptr))) s.handles h
    (some { m_ptr := s.load h }) (some { m_ptr := p }) hx
  simpa [State.holders, State.store] using hc

theorem State.holders_discard (s : State) (h : Nat) (t : Ptr) (hh : s.isHandle h = true) :
    (s.discard h).holders t + (if s.load h = t then 1 else 0) = s.holders t := by
  have hx := s.lookup_of_isHandle h hh
  have hc := countP_set_add (fun o => decide (o = some ({ m_ptr := t } : bind_ptr))) s.handles h
    (some { m_ptr := s.load h }) none hx
  simpa [State.holders, State.discard] using hc

theorem State.holders_emplace (s : State) (b : bind_ptr) (t : Ptr) :
    (s.emplace b).holders t = s.holders t + (if b.m_ptr = t then 1 else 0) := by
  obtain ⟨q⟩ := b
  simp [State.holders, State.emplace, List.countP_cons]

theorem State.holders_pos (s : State) (h : Nat) (hh : s.isHandle h = true) :
    0 < s.holders (s.load h) := by
  have hx := s.lookup_of_isHandle h hh
  have hm : some { m_ptr := s.load h } ∈ s.handles := List.getElem?_mem hx
  exact List.countP_pos_iff.mpr ⟨_, hm, by simp⟩

theorem State.holders_le_numHandles (s : State) (t : Ptr) : s.holders t ≤ s.numHandles := by
  unfold State.holders State.numHandles
  rw [← List.countP_eq_length_filter]
  apply List.countP_mono_left
  intro x _ hx
  simp at hx
  simp [hx]

/-! ## The ownership discipline is preserved by the primitive steps -/

theorem ULONG_RANGE_pos : 0 < ULONG_RANGE := by decide

/-- Decrement of an `unsigned long` that is at least one does not wrap. -/
theorem decr_mod (c : Nat) (h1 : 1 ≤ c) (h2 : c < ULONG_RANGE) :
    (c + (ULONG_RANGE - 1)) % ULONG_RANGE = c - 1 := by
  have e : c + (ULONG_RANGE - 1) = (c - 1) + ULONG_RANGE := by
    have := ULONG_RANGE_pos
    omega
  rw [e, Nat.add_mod_right, Nat.mod_eq_of_lt (by omega)]

/-- The discipline only depends on the targets and on how many handle objects, stored or
temporary, hold each target. -/
theorem State.InvT.transfer {s s1 : State} {T T1 : List Ptr} (h : s.InvT T)
    (hobj : s1.obj = s.obj)
    (hc : ∀ t, t ≠ nullptr → s1.holders t + T1.count t = s.holders t + T.count t) :
    s1.InvT T1 := by
  intro t ht
  obtain ⟨h1, h2, h3, h4⟩ := h t ht
  have e := hc t ht
  simp only [State.count, State.alive, hobj] at *
  refine ⟨h1, h2, ?_, ?_⟩
  · intro ha
    rw [e]
    exact h3 ha
  · intro ha
    rw [e]
    exact h4 ha

theorem State.InvT.null {s : State} {T : List Ptr} (h : s.InvT T) : s.InvT (nullptr :: T) := by
  refine h.transfer rfl ?_
  intro t ht
  have : nullptr ≠ t := Ne.symm ht
  simp [List.count_cons, this]

theorem State.InvT.store {s : State} {T : List Ptr} {p : Ptr} (k : Nat)
    (hk : s.isHandle k = true) (h : s.InvT (p :: T)) :
    (s.store k p).InvT (s.load k :: T) := by
  refine h.transfer rfl ?_
  intro t _
  have e := s.holders_store k p t hk
  simp only [List.count_cons, beq_iff_eq]
  omega

theorem State.InvT.emplace {s : State} {T : List Ptr} {b : bind_ptr}
    (h : s.InvT (b.m_ptr :: T)) : (s.emplace b).InvT T := by
  refine h.transfer rfl ?_
  intro t _
  have e := s.holders_emplace b t
  simp only [List.count_cons, beq_iff_eq]
  omega

theorem State.InvT.discard {s : State} {T : List Ptr} (k : Nat)
    (hk : s.isHandle k = true) (h : s.InvT T) :
    (s.discard k).InvT (s.load k :: T) := by
  refine h.transfer rfl ?_
  intro t _
  have e := s.holders_discard k t hk
  simp only [List.count_cons, beq_iff_eq]
  omega

/-- Acquire on a null reference, or on a live target whose counter does not overflow. -/
theorem State.InvT.bind {s : State} {T : List Ptr} (p : Ptr) (h : s.InvT T)
    (hp : p = nullptr ∨ (s.alive p = true ∧ s.count p + 1 < ULONG_RANGE)) :
    (bind_ptr.bind s p).1.InvT (p :: T) := by
  by_cases e : p = nullptr
  · rw [bind_ptr.bind_of_eq s p e, e]
    exact h.null
  · rcases hp with hp | ⟨ha, hc⟩
    · exact absurd hp e
    · rw [bind_ptr.bind_of_ne s p e]
      intro t ht
      obtain ⟨h1, h2, h3, h4⟩ := h t ht
      have hh : (RefCountBase.bind_ptr s p).holders t = s.holders t := rfl
      simp only [State.count, State.alive, hh, RefCountBase.bind_ptr_obj, beq_iff_eq,
        beq_eq_false_iff_ne] at h1 h2 h3 h4 ha hc ⊢
      by_cases q : t = p
      · subst t
        simp only [if_true, List.count_cons_self]
        rw [Nat.mod_eq_of_lt hc]
        refine ⟨hc, h2, ?_, ?_⟩
        · intro ha1
          have := h3 ha1
          omega
        · intro ha1
          exact absurd ha ha1
      · have q1 : ¬ p = t := fun x => q x.symm
        simp only [q, if_false, List.count_cons, beq_iff_eq, q1, Nat.add_zero]
        exact ⟨h1, h2, h3, h4⟩

/-- Release of a reference held by a temporary. -/
theorem State.InvT.unbind {s : State} {T : List Ptr} (b : bind_ptr)
    (h : s.InvT (b.m_ptr :: T)) : (bind_ptr.unbind s b).InvT T := by
  by_cases e : b.m_ptr = nullptr
  · rw [bind_ptr.unbind_of_eq s b e]
    rw [e] at h
    refine h.transfer rfl ?_
    intro t ht
    have : nullptr ≠ t := Ne.symm ht
    simp [List.count_cons, this]
  · rw [bind_ptr.unbind_of_ne s b e]
    obtain ⟨m⟩ := b
    intro t ht
    obtain ⟨h1, h2, h3, h4⟩ := h t ht
    have hh : (RefCountBase.unbind_ptr s m).holders t = s.holders t := rfl
    simp only [State.count, State.alive, hh, RefCountBase.unbind_ptr_obj, beq_iff_eq,
      beq_eq_false_iff_ne] at h1 h2 h3 h4 ⊢
    by_cases q : t = m
    · subst t
      simp only [if_true, List.count_cons_self] at h1 h2 h3 h4 ⊢
      have hd : (s.obj m).deleted = 0 := by
        by_contra hn
        have := h4 hn
        omega
      have hc := h3 hd
      have hdec := decr_mod (s.obj m).m_ref_count (by omega) h1
      simp only [hdec]
      by_cases z : (s.obj m).m_ref_count - 1 = 0
      · simp only [z, if_true, hd]
        refine ⟨ULONG_RANGE_pos, by omega, ?_, ?_⟩
        · intro ha1
          omega
        · intro _
          omega
      · simp only [z, if_false, hd]
        refine ⟨by omega, by omega, ?_, ?_⟩
        · intro _
          omega
        · intro ha1
          exact absurd rfl ha1
    · have q1 : ¬ m = t := fun x => q x.symm
      simp only [q, if_false, List.count_cons, beq_iff_eq, q1, Nat.add_zero] at h1 h2 h3 h4 ⊢
      exact ⟨h1, h2, h3, h4⟩

/-! ## The ownership discipline is preserved by every handle operation -/

/-- In a disciplined state a stored handle is empty or holds a live target, whose counter is
at most the number of handle objects. -/
theorem State.InvT.held {s : State} (h : s.InvT []) (k : Nat) (hk : s.isHandle k = true)
    (hb : s.load k ≠ nullptr) :
    s.alive (s.load k) = true ∧ 1 ≤ s.count (s.load k) ∧
      s.count (s.load k) = s.holders (s.load k) ∧ s.count (s.load k) ≤ s.numHandles ∧
      s.count (s.load k) < ULONG_RANGE := by
  obtain ⟨h1, _, h3, h4⟩ := h (s.load k) hb
  have hpos := s.holders_pos k hk
  have hle := s.holders_le_numHandles (s.load k)
  have ha : s.alive (s.load k) = true := by
    by_contra hn
    have hf : s.alive (s.load k) = false := by simpa using hn
    have := h4 hf
    omega
  have hc := h3 ha
  simp only [List.count_nil, Nat.add_zero] at hc
  exact ⟨ha, by omega, hc, by omega, h1⟩

theorem State.InvT.live_count_le {s : State} (h : s.InvT []) (p : Ptr) (hp : p ≠ nullptr)
    (ha : s.alive p = true) : s.count p ≤ s.numHandles := by
  obtain ⟨_, _, h3, _⟩ := h p hp
  have hc := h3 ha
  have hle := s.holders_le_numHandles p
  simp only [List.count_nil, Nat.add_zero] at hc
  omega

theorem bind_ptr.swap_holders (s : State) (a b : Nat) (t : Ptr)
    (ha : s.isHandle a = true) (hb : s.isHandle b = true) :
    (swap s a b).holders t = s.holders t := by
  have hla := s.isHandle_lt a ha
  have h1 := s.holders_store a (s.load b) t ha
  have hb1 : (s.store a (s.load b)).isHandle b = true := State.isHandle_store _ _ _ _ hb
  have h2 := (s.store a (s.load b)).holders_store b (s.load a) t hb1
  have hl : (s.store a (s.load b)).load b = s.load b := by
    by_cases e : a = b
    · subst e
      rw [State.load_store_same _ _ _ hla]
    · rw [State.load_store_other _ _ _ _ e]
  rw [hl] at h2
  show ((s.store a (s.load b)).store b (s.load a)).holders t = s.holders t
  omega

theorem bind_ptr.dtor_eq (s : State) (k : Nat) :
    dtor s k = unbind (s.discard k) { m_ptr := s.load k } := by
  rw [show s.discard k = { s with handles := s.handles.set k none } from rfl,
    unbind_with_handles]
  show ({ unbind s { m_ptr := s.load k } with
    handles := (unbind s { m_ptr := s.load k }).handles.set k none } : State) = _
  rw [unbind_handles]

/-- Every enabled handle operation preserves the ownership discipline. -/
theorem Op.run_preserves (s : State) (op : Op) (hinv : s.Inv) (hok : op.ok s = true) :
    (op.run s).Inv := by
  unfold State.Inv at hinv ⊢
  unfold Op.ok at hok
  have hcap : op.constructs = true → s.numHandles + 1 < ULONG_RANGE := by
    intro hc
    have h2 : operandsOk s op = true ∧ s.numHandles + 1 < ULONG_RANGE := by
      simpa [hc] using hok
    exact h2.2
  have hops : op.operandsOk s = true := by
    simp only [Bool.and_eq_true] at hok
    exact hok.1
  have raw_ok : ∀ p : Ptr, (p == nullptr || s.alive p) = true →
      s.numHandles + 1 < ULONG_RANGE →
      p = nullptr ∨ (s.alive p = true ∧ s.count p + 1 < ULONG_RANGE) := by
    intro p hp hc
    by_cases e : p = nullptr
    · exact Or.inl e
    · have ha : s.alive p = true := by simpa [e] using hp
      have := hinv.live_count_le p e ha
      exact Or.inr ⟨ha, by omega⟩
  have held_ok : ∀ k : Nat, s.isHandle k = true → s.numHandles + 1 < ULONG_RANGE →
      s.load k = nullptr ∨ (s.alive (s.load k) = true ∧ s.count (s.load k) + 1 < ULONG_RANGE) := by
    intro k hk hc
    by_cases e : s.load k = nullptr
    · exact Or.inl e
    · obtain ⟨ha, _, _, hle, _⟩ := hinv.held k hk e
      exact Or.inr ⟨ha, by omega⟩
  cases op with
  | ctor_default => exact hinv.null.emplace
  | ctor_raw p =>
    have hb := hinv.bind p (raw_ok p hops (hcap rfl))
    exact State.InvT.emplace (b := (bind_ptr.bind s p).2) hb
  | ctor_copy p =>
    have hb := hinv.bind (s.load p) (held_ok p hops (hcap rfl))
    exact State.InvT.emplace (b := (bind_ptr.bind s (s.load p)).2) hb
  | assign_copy self p =>
    simp only [Op.operandsOk, Bool.and_eq_true] at hops
    have hb := hinv.bind (s.load p) (held_ok p hops.2 (hcap rfl))
    have hself : (bind_ptr.bind s (s.load p)).1.isHandle self = true := by
      rw [State.isHandle_of_handles_eq (bind_handles s _)]
      exact hops.1
    exact (hb.store self hself).unbind { m_ptr := (bind_ptr.bind s (s.load p)).1.load self }
  | ctor_move p => exact State.InvT.emplace (b := { m_ptr := s.load p }) (hinv.null.store p hops)
  | assign_move self p =>
    simp only [Op.operandsOk, Bool.and_eq_true] at hops
    have h1 := hinv.null.store p hops.2
    have hself : (s.store p nullptr).isHandle self = true :=
      State.isHandle_store _ _ _ _ hops.1
    exact (h1.store self hself).unbind { m_ptr := (s.store p nullptr).load self }
  | move p => exact State.InvT.emplace (b := { m_ptr := s.load p }) (hinv.null.store p hops)
  | reset self => exact (hinv.null.store self hops).unbind { m_ptr := s.load self }
  | reset_raw self p =>
    simp only [Op.operandsOk, Bool.and_eq_true] at hops
    have hb := hinv.bind p (raw_ok p hops.2 (hcap rfl))
    have hself : (bind_ptr.bind s p).1.isHandle self = true := by
      rw [State.isHandle_of_handles_eq (bind_handles s _)]
      exact hops.1
    exact (hb.store self hself).unbind { m_ptr := (bind_ptr.bind s p).1.load self }
  | swap self p =>
    simp only [Op.operandsOk, Bool.and_eq_true] at hops
    refine hinv.transfer rfl ?_
    intro t _
    rw [show (Op.swap self p).run s = bind_ptr.swap s self p from rfl,
      swap_holders s self p t hops.1 hops.2]
  | swap_friend a b =>
    simp only [Op.operandsOk, Bool.and_eq_true] at hops
    refine hinv.transfer rfl ?_
    intro t _
    rw [show (Op.swap_friend a b).run s = bind_ptr.swap s a b from rfl,
      swap_holders s a b t hops.1 hops.2]
  | dtor self =>
    show (bind_ptr.dtor s self).InvT []
    rw [bind_ptr.dtor_eq]
    exact (hinv.discard self hops).unbind { m_ptr := s.load self }

theorem State.init_Inv : State.init.Inv := by
  intro t _
  simp [State.init, State.count, State.alive, State.holders, fresh, ULONG_RANGE]

/-- Every reachable state satisfies the ownership discipline. -/
theorem Reachable.inv {s : State} (h : Reachable s) : s.Inv := by
  induction h with
  | init => exact State.init_Inv
  | step s op _ hok ih => exact Op.run_preserves s op ih hok

/-! ## Single operations -/

/-- C3: move-constructing `q` from a handle `p`, by the move constructor or by `move(p)`, leaves
`p` empty and `q` holding the reference `p` held, makes no counting call, and leaves every
target as it was. -/
theorem C3_move_construct_relocates (s : State) (p : Nat) (hp : s.isHandle p = true) :
    ∀ s1 : State, s1 = ctor_move s p ∨ s1 = move s p →
      s1.get p = nullptr ∧ s1.isHandle p = true ∧
      s1.isHandle s.handles.length = true ∧ s1.get s.handles.length = s.get p ∧
      s1.calls = s.calls ∧ s1.obj = s.obj ∧ (∀ t, s1.count t = s.count t) := by
  have hlt := s.isHandle_lt p hp
  have key : ∀ s1 : State, s1 = ctor_move s p →
      s1.get p = nullptr ∧ s1.isHandle p = true ∧
      s1.isHandle s.handles.length = true ∧ s1.get s.handles.length = s.get p ∧
      s1.calls = s.calls ∧ s1.obj = s.obj ∧ (∀ t, s1.count t = s.count t) := by
    intro s1 h1
    subst h1
    have hlen : (s.store p nullptr).handles.length = s.handles.length := by
      simp [State.store]
    refine ⟨?_, ?_, ?_, ?_, rfl, rfl, fun _ => rfl⟩
    · show ((s.store p nullptr).emplace _).load p = nullptr
      rw [State.load_emplace_old _ _ _ (by omega), State.load_store_same _ _ _ hlt]
    · simp [ctor_move, release, State.emplace, State.store, State.isHandle,
        List.getElem?_append_left, hlt]
    · have h := State.isHandle_emplace_new (s.store p nullptr) { m_ptr := s.load p }
      rw [hlen] at h
      exact h
    · have h := State.load_emplace_new (s.store p nullptr) { m_ptr := s.load p }
      rw [hlen] at h
      exact h
  intro s1 h1
  rcases h1 with h1 | h1
  · exact key s1 h1
  · exact key s1 h1

/-- Witness for C3: a bound handle is moved from. -/
theorem C3_move_construct_relocates_witness :
    (ctor_raw State.init 7).isHandle 0 = true ∧
    (move (ctor_raw State.init 7) 0).get 0 = nullptr ∧
    (move (ctor_raw State.init 7) 0).get 1 = 7 ∧
    (move (ctor_raw State.init 7) 0).calls = (ctor_raw State.init 7).calls :=
  have h := C3_move_construct_relocates (ctor_raw State.init 7) 0 (by decide)
    (move (ctor_raw State.init 7) 0) (Or.inr rfl)
  ⟨by decide, h.1, h.2.2.2.1, h.2.2.2.2.1⟩

/-- C4: copy-constructing `q` from a handle `p` is constructing `q` from the raw reference
`p.get()`: `q.get() == p.get()` and `p` is unchanged; if `p` is bound the only counting call is
one acquire on its target, whose counter is incremented (by exactly one unless it wraps at the
top of `unsigned long`) without the target being deleted; if `p` is empty, `q` is empty and no
counting call is made. -/
theorem C4_copy_construct_is_construct_from_raw (s : State) (p : Nat)
    (hp : s.isHandle p = true) :
    ctor_copy s p = ctor_raw s (s.get p) ∧
    (ctor_copy s p).isHandle s.handles.length = true ∧
    (ctor_copy s p).get s.handles.length = s.get p ∧
    (ctor_copy s p).get p = s.get p ∧
    (s.get p ≠ nullptr →
      (ctor_copy s p).calls = s.calls ++ [Call.bind_ptr (s.get p)] ∧
      (ctor_copy s p).count (s.get p) = (s.count (s.get p) + 1) % ULONG_RANGE ∧
      (s.count (s.get p) + 1 < ULONG_RANGE →
        (ctor_copy s p).count (s.get p) = s.count (s.get p) + 1) ∧
      ((ctor_copy s p).obj (s.get p)).deleted = (s.obj (s.get p)).deleted ∧
      (∀ t, t ≠ s.get p → (ctor_copy s p).obj t = s.obj t)) ∧
    (s.get p = nullptr →
      (ctor_copy s p).get s.handles.length = nullptr ∧
      (ctor_copy s p).calls = s.calls ∧ (ctor_copy s p).obj = s.obj) := by
  have hlt := s.isHandle_lt p hp
  have hlen : (bind s (s.load p)).1.handles.length = s.handles.length := by
    rw [bind_handles]
  have hnew : (ctor_copy s p).load s.handles.length = s.load p := by
    have h := State.load_emplace_new (bind s (s.load p)).1 (bind s (s.load p)).2
    rw [hlen] at h
    exact h
  refine ⟨rfl, ?_, hnew, ?_, ?_, ?_⟩
  · have h := State.isHandle_emplace_new (bind s (s.load p)).1 (bind s (s.load p)).2
    rw [hlen] at h
    exact h
  · show ((bind s (s.load p)).1.emplace _).load p = s.load p
    rw [State.load_emplace_old _ _ _ (by omega)]
    simp [State.load, bind_handles]
  · intro hb
    have hb1 : s.load p ≠ nullptr := hb
    have hobj : ∀ q, (ctor_copy s p).obj q = (RefCountBase.bind_ptr s (s.load p)).obj q := by
      intro q
      show ((bind_ptr.bind s (s.load p)).1.emplace _).obj q = _
      rw [bind_ptr.bind_of_ne s _ hb1]
      rfl
    have hmod : (ctor_copy s p).count (s.get p) = (s.count (s.get p) + 1) % ULONG_RANGE := by
      show ((ctor_copy s p).obj (s.load p)).m_ref_count = _
      rw [hobj, RefCountBase.bind_ptr_obj]
      simp [State.get, bind_ptr.get]
    refine ⟨?_, hmod, ?_, ?_, ?_⟩
    · show ((bind_ptr.bind s (s.load p)).1.emplace _).calls = _
      rw [bind_ptr.bind_of_ne s _ hb1]
      rfl
    · intro hr
      rw [hmod, Nat.mod_eq_of_lt hr]
    · show ((ctor_copy s p).obj (s.load p)).deleted = _
      rw [hobj, RefCountBase.bind_ptr_obj]
      simp [State.get, bind_ptr.get]
    · intro t ht
      have ht1 : t ≠ s.load p := ht
      rw [hobj, RefCountBase.bind_ptr_obj]
      simp [ht1]
  · intro he
    have he1 : s.load p = nullptr := he
    refine ⟨hnew.trans he1, ?_, ?_⟩
    · show ((bind_ptr.bind s (s.load p)).1.emplace _).calls = _
      rw [bind_ptr.bind_of_eq s _ he1]
      rfl
    · show ((bind_ptr.bind s (s.load p)).1.emplace _).obj = _
      rw [bind_ptr.bind_of_eq s _ he1]
      rfl

/-- Witness for C4: a bound handle whose target has count 1 is copied. -/
theorem C4_copy_construct_is_construct_from_raw_witness :
    (ctor_raw State.init 7).isHandle 0 = true ∧
    (ctor_copy (ctor_raw State.init 7) 0).get 1 = (ctor_raw State.init 7).get 0 ∧
    ctor_copy (ctor_raw State.init 7) 0
      = ctor_raw (ctor_raw State.init 7) ((ctor_raw State.init 7).get 0) :=
  have h := C4_copy_construct_is_construct_from_raw (ctor_raw State.init 7) 0 (by decide)
  ⟨by decide, h.2.2.1, h.1⟩

/-- C8: `a.swap(b)` and `swap(a, b)` leave `a` holding what `b` held and `b` holding what `a`
held, make no counting call, and leave every target (count and liveness) as it was. -/
theorem C8_swap_exchanges_without_counting (s : State) (a b : Nat)
    (ha : s.isHandle a = true) (hb : s.isHandle b = true) :
    ∀ s1 : State, s1 = swap s a b ∨ s1 = swap_friend s a b →
      s1.get a = s.get b ∧ s1.get b = s.get a ∧
      s1.isHandle a = true ∧ s1.isHandle b = true ∧
      s1.calls = s.calls ∧ s1.obj = s.obj ∧
      (∀ t, s1.count t = s.count t ∧ s1.alive t = s.alive t) := by
  have hla := s.isHandle_lt a ha
  have hlb := s.isHandle_lt b hb
  have key : ∀ s1 : State, s1 = swap s a b →
      s1.get a = s.get b ∧ s1.get b = s.get a ∧
      s1.isHandle a = true ∧ s1.isHandle b = true ∧
      s1.calls = s.calls ∧ s1.obj = s.obj ∧
      (∀ t, s1.count t = s.count t ∧ s1.alive t = s.alive t) := by
    intro s1 h1
    subst h1
    have hlen : (s.store a (s.load b)).handles.length = s.handles.length := by
      simp [State.store]
    refine ⟨?_, ?_, ?_, ?_, rfl, rfl, fun _ => ⟨rfl, rfl⟩⟩
    · show ((s.store a (s.load b)).store b (s.load a)).load a = s.load b
      by_cases e : a = b
      · subst e
        rw [State.load_store_same _ _ _ (by omega)]
      · rw [State.load_store_other _ _ _ _ (Ne.symm e), State.load_store_same _ _ _ hla]
    · show ((s.store a (s.load b)).store b (s.load a)).load b = s.load a
      rw [State.load_store_same _ _ _ (by omega)]
    · exact State.isHandle_store _ _ _ _ (State.isHandle_store _ _ _ _ ha)
    · exact State.isHandle_store _ _ _ _ (State.isHandle_store _ _ _ _ hb)
  intro s1 h1
  rcases h1 with h1 | h1
  · exact key s1 h1
  · exact key s1 h1

/-- Witness for C8: a bound handle is swapped with an empty one. -/
theorem C8_swap_exchanges_without_counting_witness :
    (ctor_default (ctor_raw State.init 7)).isHandle 0 = true ∧
    (ctor_default (ctor_raw State.init 7)).isHandle 1 = true ∧
    (swap (ctor_default (ctor_raw State.init 7)) 0 1).get 0 = nullptr ∧
    (swap (ctor_default (ctor_raw State.init 7)) 0 1).get 1 = 7 ∧
    (swap (ctor_default (ctor_raw State.init 7)) 0 1).calls = [Call.bind_ptr 7] :=
  have h := C8_swap_exchanges_without_counting (ctor_default (ctor_raw State.init 7)) 0 1
    (by decide) (by decide) (swap (ctor_default (ctor_raw State.init 7)) 0 1) (Or.inl rfl)
  ⟨by decide, by decide, h.1, h.2.1, h.2.2.2.2.1⟩

/-- C6: `reset()` on a handle `p` produces the state produced by destroying `p` and
default-constructing a handle in its place: `p` becomes empty; if `p` was bound, the only
counting call is one release-or-destroy on the target it held, whose counter is decremented and
which is deleted exactly when the decremented counter is zero; if `p` was empty nothing is
invoked and the state is unchanged. -/
theorem C6_reset_is_destroy_then_default_construct (s : State) (p : Nat)
    (hp : s.isHandle p = true) :
    reset s p = spec_destroy_then_default_construct s p ∧
    (reset s p).get p = nullptr ∧ (reset s p).isHandle p = true ∧
    (s.get p ≠ nullptr →
      (reset s p).calls = s.calls ++ [Call.unbind_ptr (s.get p)] ∧
      (reset s p).count (s.get p) = (s.count (s.get p) + (ULONG_RANGE - 1)) % ULONG_RANGE ∧
      (1 ≤ s.count (s.get p) → s.count (s.get p) < ULONG_RANGE →
        (reset s p).count (s.get p) = s.count (s.get p) - 1) ∧
      ((reset s p).obj (s.get p)).deleted =
        (s.obj (s.get p)).deleted + (if (reset s p).count (s.get p) = 0 then 1 else 0) ∧
      (∀ t, t ≠ s.get p → (reset s p).obj t = s.obj t)) ∧
    (s.get p = nullptr → reset s p = s) := by
  have hlt := s.isHandle_lt p hp
  have hreset : reset s p = { unbind s { m_ptr := s.load p } with
      handles := s.handles.set p (some { m_ptr := nullptr }) } := by
    show unbind (s.store p nullptr) { m_ptr := s.load p } = _
    exact unbind_with_handles s _ _
  have hload : (reset s p).load p = nullptr := by
    rw [hreset]
    simp [State.load, hlt]
  refine ⟨?_, hload, ?_, ?_, ?_⟩
  · rw [hreset]
    simp [spec_destroy_then_default_construct, ctor_default_at, dtor, State.store, State.discard,
      unbind_handles]
  · rw [hreset]
    simp [State.isHandle, hlt]
  · intro hb
    have hb1 : s.load p ≠ nullptr := hb
    have hobj : ∀ q, (reset s p).obj q = (RefCountBase.unbind_ptr s (s.load p)).obj q := by
      intro q
      rw [hreset, unbind_of_ne s { m_ptr := s.load p } hb1]
    have hmod : (reset s p).count (s.get p)
        = (s.count (s.get p) + (ULONG_RANGE - 1)) % ULONG_RANGE := by
      show ((reset s p).obj (s.load p)).m_ref_count = _
      rw [hobj, RefCountBase.unbind_ptr_obj]
      simp [State.get, bind_ptr.get]
    refine ⟨?_, hmod, ?_, ?_, ?_⟩
    · rw [hreset, unbind_of_ne s { m_ptr := s.load p } hb1]
      rfl
    · intro h1 h2
      rw [hmod]
      have e : s.count (s.get p) + (ULONG_RANGE - 1)
          = (s.count (s.get p) - 1) + ULONG_RANGE := by
        have : 0 < ULONG_RANGE := by decide
        omega
      rw [e, Nat.add_mod_right, Nat.mod_eq_of_lt (by omega)]
    · rw [hmod]
      show ((reset s p).obj (s.load p)).deleted = _
      rw [hobj, RefCountBase.unbind_ptr_obj]
      simp only [State.get, bind_ptr.get, if_true]
      split <;> rfl
    · intro t ht
      have ht1 : t ≠ s.load p := ht
      rw [hobj, RefCountBase.unbind_ptr_obj]
      simp [ht1]
  · intro he
    have he1 : s.load p = nullptr := he
    rw [hreset, unbind_of_eq s { m_ptr := s.load p } he1]
    have hget : s.handles[p]? = some (some { m_ptr := nullptr }) := by
      unfold State.load at he1
      unfold State.isHandle at hp
      rcases hx : s.handles[p]? with _ | (_ | ⟨m⟩)
      · simp [hx] at hp
      · simp [hx] at hp
      · obtain ⟨q⟩ := m
        simp only [hx] at he1
        rw [show q = nullptr from he1]
    have hset : s.handles.set p (some { m_ptr := nullptr }) = s.handles := by
      apply List.ext_getElem?
      intro i
      by_cases e : p = i
      · subst e
        simp [hlt, hget]
      · simp [List.getElem?_set_ne e]
    rw [hset]

/-- Witness for C6: the sole owner of a target is reset, deleting the target. -/
theorem C6_reset_is_destroy_then_default_construct_witness :
    (ctor_raw State.init 7).isHandle 0 = true ∧
    reset (ctor_raw State.init 7) 0
      = spec_destroy_then_default_construct (ctor_raw State.init 7) 0 ∧
    (reset (ctor_raw State.init 7) 0).get 0 = nullptr :=
  have h := C6_reset_is_destroy_then_default_construct (ctor_raw State.init 7) 0 (by decide)
  ⟨by decide, h.1, h.2.1⟩

/-- C7 as stated fails: on a handle bound to target `7` (count 1), `reset(9)` logs the acquire
of `9` before the release of `7`, where the specified order logs the release first; and
`reset(7)` keeps target `7` alive, where releasing first would delete it. -/
theorem C7_reset_raw_release_first_counterexample :
    (ctor_raw State.init 7).isHandle 0 = true ∧
    (reset_raw (ctor_raw State.init 7) 0 9).calls
      = [Call.bind_ptr 7, Call.bind_ptr 9, Call.unbind_ptr 7] ∧
    (spec_release_then_construct (ctor_raw State.init 7) 0 9).calls
      = [Call.bind_ptr 7, Call.unbind_ptr 7, Call.bind_ptr 9] ∧
    (reset_raw (ctor_raw State.init 7) 0 9).calls
      ≠ (ctor_raw State.init 7).calls ++ releaseCalls 7 ++ acquireCalls 9 ∧
    (reset_raw (ctor_raw State.init 7) 0 7).alive 7 = true ∧
    (spec_release_then_construct (ctor_raw State.init 7) 0 7).alive 7 = false := by
  decide

/-- C7 (amended): `reset(r)` on a handle `p` first behaves as construct-from-raw-reference with
`r` for a temporary (acquire on `r` if `r` is non-null) and only afterwards invokes
release-or-destroy on the reference `p` held (if any): in the call log the acquire of the new
reference precedes the release of the old one, the targets are as after that acquire followed
by that release, and afterwards `p.get() == r`. -/
theorem C7_reset_raw_acquires_then_releases (s : State) (p : Nat) (r : Ptr)
    (hp : s.isHandle p = true) :
    (reset_raw s p r).calls = s.calls ++ acquireCalls r ++ releaseCalls (s.get p) ∧
    (reset_raw s p r).obj = (unbind (bind_ptr.bind s r).1 { m_ptr := s.get p }).obj ∧
    (reset_raw s p r).get p = r ∧ (reset_raw s p r).isHandle p = true := by
  have hlt := s.isHandle_lt p hp
  have hload : (bind_ptr.bind s r).1.load p = s.load p := by
    simp [State.load, bind_handles]
  have hreset : reset_raw s p r = { unbind (bind_ptr.bind s r).1 { m_ptr := s.load p } with
      handles := s.handles.set p (some { m_ptr := r }) } := by
    show unbind ((bind_ptr.bind s r).1.store p r) { m_ptr := (bind_ptr.bind s r).1.load p } = _
    rw [hload]
    have h := unbind_with_handles (bind_ptr.bind s r).1 { m_ptr := s.load p }
      (s.handles.set p (some { m_ptr := r }))
    rw [← h]
    simp [State.store, bind_handles]
  refine ⟨?_, ?_, ?_, ?_⟩
  · rw [hreset]
    show (unbind (bind_ptr.bind s r).1 { m_ptr := s.load p }).calls = _
    rw [unbind_calls, bind_calls]
    rfl
  · rw [hreset]
    rfl
  · rw [hreset]
    simp [State.get, bind_ptr.get, State.load, hlt]
  · rw [hreset]
    simp [State.isHandle, hlt]

/-- Witness for C7 (amended): a handle bound to target `7` is reset to target `9`. -/
theorem C7_reset_raw_acquires_then_releases_witness :
    (ctor_raw State.init 7).isHandle 0 = true ∧
    (reset_raw (ctor_raw State.init 7) 0 9).calls
      = (ctor_raw State.init 7).calls ++ acquireCalls 9
        ++ releaseCalls ((ctor_raw State.init 7).get 0) ∧
    (reset_raw (ctor_raw State.init 7) 0 9).get 0 = 9 :=
  have h := C7_reset_raw_acquires_then_releases (ctor_raw State.init 7) 0 9 (by decide)
  ⟨by decide, h.1, h.2.2.1⟩

/-! ## Ownership invariant of reachable states -/

/-- The holders of a non-null target are the occurrences of its address among the references
held by the non-empty handles. -/
theorem State.holders_eq_count_heldRefs (s : State) (t : Ptr) (ht : t ≠ nullptr) :
    s.holders t = s.heldRefs.count t := by
  unfold State.holders State.heldRefs
  induction s.handles with
  | nil => simp
  | cons x l ih =>
    cases x with
    | none => simpa [List.countP_cons] using ih
    | some b =>
      obtain ⟨q⟩ := b
      by_cases e : q = t
      · subst e
        simp [List.countP_cons, List.filter_cons, ht, ih]
      · by_cases z : q = nullptr
        · have z1 : ¬ nullptr = t := fun x => ht x.symm
          simp [List.countP_cons, List.filter_cons, e, z, z1, ih]
        · simp [List.countP_cons, List.filter_cons, e, z, ih, List.count_cons]

theorem State.mem_heldRefs (s : State) (t : Ptr) (h : t ∈ s.heldRefs) :
    t ≠ nullptr ∧ 0 < s.holders t := by
  have ht : t ≠ nullptr := by
    unfold State.heldRefs at h
    simpa using (List.mem_filter.mp h).2
  refine ⟨ht, ?_⟩
  rw [s.holders_eq_count_heldRefs t ht]
  exact List.count_pos_iff.mpr h

/-- C2: in every state reachable from fresh targets and no handles by the handle operations,
the count of every live target equals the number of handles holding it, every non-empty handle
holds a live target, and empty handles contribute to no count: the counts of the held targets
add up to the number of non-empty handles. -/
theorem C2_ownership_invariant (s : State) (h : Reachable s) :
    (∀ t, t ≠ nullptr → s.alive t = true → s.count t = s.holders t) ∧
    (∀ k, s.isHandle k = true → s.get k ≠ nullptr → s.alive (s.get k) = true) ∧
    (s.heldRefs.dedup.map s.count).sum = s.heldRefs.length := by
  have hinv : s.InvT [] := h.inv
  have h1 : ∀ t, t ≠ nullptr → s.alive t = true → s.count t = s.holders t := by
    intro t ht ha
    simpa using (hinv t ht).2.2.1 ha
  refine ⟨h1, ?_, ?_⟩
  · intro k hk hb
    exact (hinv.held k hk hb).1
  · have hmap : s.heldRefs.dedup.map s.count
        = s.heldRefs.dedup.map (fun t => s.heldRefs.count t) := by
      apply List.map_congr_left
      intro t ht
      obtain ⟨hne, hpos⟩ := s.mem_heldRefs t (List.mem_dedup.mp ht)
      have ha : s.alive t = true := by
        by_contra hn
        have hf : s.alive t = false := by simpa using hn
        have := (hinv t hne).2.2.2 hf
        omega
      rw [h1 t hne ha, s.holders_eq_count_heldRefs t hne]
    rw [hmap]
    exact List.sum_map_count_dedup_eq_length s.heldRefs

/-- Witness for C2: a handle on target `7`, a copy of it, and the first reset to target `9`. -/
theorem C2_ownership_invariant_witness :
    Reachable ((Op.reset_raw 0 9).run ((Op.ctor_copy 0).run ((Op.ctor_raw 7).run State.init))) ∧
    ((Op.reset_raw 0 9).run ((Op.ctor_copy 0).run ((Op.ctor_raw 7).run State.init))).count 7
      = ((Op.reset_raw 0 9).run
          ((Op.ctor_copy 0).run ((Op.ctor_raw 7).run State.init))).holders 7 :=
  have hr : Reachable
      ((Op.reset_raw 0 9).run ((Op.ctor_copy 0).run ((Op.ctor_raw 7).run State.init))) :=
    Reachable.step _ _ (Reachable.step _ _ (Reachable.step _ _ Reachable.init (by decide))
      (by decide)) (by decide)
  ⟨hr, (C2_ownership_invariant _ hr).1 7 (by decide) (by decide)⟩

/-- C5: in a state satisfying the ownership discipline, copying a bound handle `p` to `q` and
then destroying `p` leaves `q` holding the reference `p` held, and leaves the target alive with
the count it had before the copy. -/
theorem C5_copy_then_destroy_original (s : State) (p : Nat) (hinv : s.Inv)
    (hp : s.isHandle p = true) (hb : s.get p ≠ nullptr) :
    (dtor (ctor_copy s p) p).isHandle s.handles.length = true ∧
    (dtor (ctor_copy s p) p).get s.handles.length = s.get p ∧
    (dtor (ctor_copy s p) p).alive (s.get p) = true ∧
    (dtor (ctor_copy s p) p).count (s.get p) = s.count (s.get p) ∧
    ((dtor (ctor_copy s p) p).obj (s.get p)).deleted = 0 := by
  have hb1 : s.load p ≠ nullptr := hb
  have hlt := s.isHandle_lt p hp
  obtain ⟨ha, hc1, _, _, hc2⟩ := State.InvT.held hinv p hp hb1
  have hd : (s.obj (s.load p)).deleted = 0 := by simpa [State.alive] using ha
  have hcopy : ctor_copy s p
      = (RefCountBase.bind_ptr s (s.load p)).emplace { m_ptr := s.load p } := by
    show (bind_ptr.bind s (s.load p)).1.emplace _ = _
    rw [bind_ptr.bind_of_ne s _ hb1]
    rfl
  have hloadp : (ctor_copy s p).load p = s.load p := by
    rw [hcopy, State.load_emplace_old _ _ _ (by simpa [RefCountBase.bind_ptr_handles] using hlt)]
    exact State.load_of_handles_eq (RefCountBase.bind_ptr_handles s _) p
  have hdtor : dtor (ctor_copy s p) p
      = (RefCountBase.unbind_ptr (ctor_copy s p) (s.load p)).discard p := by
    show (unbind (ctor_copy s p) { m_ptr := (ctor_copy s p).load p }).discard p = _
    rw [hloadp, unbind_of_ne _ { m_ptr := s.load p } hb1]
  have hobj : (dtor (ctor_copy s p) p).obj (s.load p) = s.obj (s.load p) := by
    rw [hdtor]
    show (RefCountBase.unbind_ptr (ctor_copy s p) (s.load p)).obj (s.load p) = _
    rw [RefCountBase.unbind_ptr_obj, if_pos rfl]
    have hcnt : (ctor_copy s p).count (s.load p) = (s.count (s.load p) + 1) % ULONG_RANGE := by
      rw [hcopy]
      show ((RefCountBase.bind_ptr s (s.load p)).obj (s.load p)).m_ref_count = _
      rw [RefCountBase.bind_ptr_obj, if_pos rfl]
    have hdel : ((ctor_copy s p).obj (s.load p)).deleted = (s.obj (s.load p)).deleted := by
      rw [hcopy]
      show ((RefCountBase.bind_ptr s (s.load p)).obj (s.load p)).deleted = _
      rw [RefCountBase.bind_ptr_obj, if_pos rfl]
    have hround : ((s.count (s.load p) + 1) % ULONG_RANGE + (ULONG_RANGE - 1)) % ULONG_RANGE
        = s.count (s.load p) := by
      have hpos := ULONG_RANGE_pos
      rw [Nat.add_mod, Nat.mod_mod, ← Nat.add_mod]
      have e : s.count (s.load p) + 1 + (ULONG_RANGE - 1)
          = s.count (s.load p) + ULONG_RANGE := by omega
      rw [e, Nat.add_mod_right, Nat.mod_eq_of_lt hc2]
    simp only [hcnt, hdel, hround]
    have hnz : ¬ s.count (s.load p) = 0 := by omega
    simp only [hnz, if_false]
    rfl
  have hne : p ≠ s.handles.length := by omega
  have hh : (RefCountBase.unbind_ptr (ctor_copy s p) (s.load p)).handles
      = (ctor_copy s p).handles := rfl
  have hlen : (RefCountBase.bind_ptr s (s.load p)).handles.length = s.handles.length := rfl
  simp only [State.get_eq_load]
  refine ⟨?_, ?_, ?_, ?_, ?_⟩
  · rw [hdtor, State.isHandle_discard_other _ _ _ hne, State.isHandle_of_handles_eq hh, hcopy]
    have h := State.isHandle_emplace_new (RefCountBase.bind_ptr s (s.load p))
      { m_ptr := s.load p }
    rw [hlen] at h
    exact h
  · rw [hdtor, State.load_discard_other _ _ _ hne, State.load_of_handles_eq hh, hcopy]
    have h := State.load_emplace_new (RefCountBase.bind_ptr s (s.load p))
      { m_ptr := s.load p }
    rw [hlen] at h
    exact h
  · simp only [State.alive, hobj, hd]
    rfl
  · simp only [State.count, hobj]
  · rw [hobj, hd]

/-- Witness for C5: the sole owner of target `7` is copied and then destroyed. -/
theorem C5_copy_then_destroy_original_witness :
    (ctor_raw State.init 7).isHandle 0 = true ∧ (ctor_raw State.init 7).get 0 ≠ nullptr ∧
    (dtor (ctor_copy (ctor_raw State.init 7) 0) 0).get 1 = (ctor_raw State.init 7).get 0 ∧
    (dtor (ctor_copy (ctor_raw State.init 7) 0) 0).alive ((ctor_raw State.init 7).get 0) = true ∧
    (dtor (ctor_copy (ctor_raw State.init 7) 0) 0).count ((ctor_raw State.init 7).get 0)
      = (ctor_raw State.init 7).count ((ctor_raw State.init 7).get 0) :=
  have hinv : (ctor_raw State.init 7).Inv :=
    Op.run_preserves State.init (Op.ctor_raw 7) State.init_Inv (by decide)
  have h := C5_copy_then_destroy_original (ctor_raw State.init 7) 0 hinv (by decide) (by decide)
  ⟨by decide, by decide, h.2.1, h.2.2.1, h.2.2.2.1⟩

/-! ## Shared ownership: the last handle destroys the target -/

/-- After `k` further copies of a handle bound to `t`, the store has `k` more handles bound to
`t` and the counter of `t` has grown by `k`. -/
theorem copies_spec (s : State) (src : Nat) (t : Ptr) (ht : t ≠ nullptr)
    (hsrc : s.handles[src]? = some (some { m_ptr := t })) (k : Nat)
    (hk : s.count t + k < ULONG_RANGE) :
    (copies s src k).handles = s.handles ++ List.replicate k (some { m_ptr := t }) ∧
    (copies s src k).obj t = { m_ref_count := s.count t + k, deleted := (s.obj t).deleted } := by
  induction k with
  | zero => exact ⟨by simp [copies], rfl⟩
  | succ k ih =>
    obtain ⟨ih1, ih2⟩ := ih (by omega)
    have hlt : src < s.handles.length := by
      rcases List.getElem?_eq_some.mp hsrc with ⟨h, _⟩
      exact h
    have hload : (copies s src k).load src = t := by
      simp [State.load, ih1, List.getElem?_append_left hlt, hsrc]
    have hstep : copies s src (k + 1)
        = (RefCountBase.bind_ptr (copies s src k) t).emplace { m_ptr := t } := by
      show (bind_ptr.bind (copies s src k) ((copies s src k).load src)).1.emplace _ = _
      rw [hload, bind_ptr.bind_of_ne _ _ ht]
      rfl
    rw [hstep]
    refine ⟨?_, ?_⟩
    · show (copies s src k).handles ++ [some { m_ptr := t }] = _
      rw [ih1, List.replicate_succ', List.append_assoc]
    · show (RefCountBase.bind_ptr (copies s src k) t).obj t = _
      rw [RefCountBase.bind_ptr_obj, if_pos rfl]
      simp only [State.count, ih2]
      rw [Nat.mod_eq_of_lt (by simpa [State.count, Nat.add_assoc] using hk)]
      rfl

/-- One handle constructed from a fresh target and `n - 1` copies: `n` new handles bound to
the target, whose counter is `n`. -/
theorem share_spec (s : State) (t : Ptr) (n : Nat) (ht : t ≠ nullptr) (hfresh : s.obj t = fresh)
    (hn : 1 ≤ n) (hbound : n < ULONG_RANGE) :
    (share s t n).handles = s.handles ++ List.replicate n (some { m_ptr := t }) ∧
    (share s t n).obj t = { m_ref_count := n, deleted := 0 } := by
  have hraw : ctor_raw s t = (RefCountBase.bind_ptr s t).emplace { m_ptr := t } := by
    show (bind_ptr.bind s t).1.emplace _ = _
    rw [bind_ptr.bind_of_ne _ _ ht]
    rfl
  have hh : (ctor_raw s t).handles = s.handles ++ [some { m_ptr := t }] := by
    rw [hraw]
    rfl
  have hobj : (ctor_raw s t).obj t = { m_ref_count := 1, deleted := 0 } := by
    rw [hraw]
    show (RefCountBase.bind_ptr s t).obj t = _
    rw [RefCountBase.bind_ptr_obj, if_pos rfl]
    simp only [State.count, hfresh, fresh]
    rfl
  have hsrc : (ctor_raw s t).handles[s.handles.length]? = some (some { m_ptr := t }) := by
    simp [hh]
  have hc : (ctor_raw s t).count t = 1 := by
    simp [State.count, hobj]
  obtain ⟨h1, h2⟩ := copies_spec (ctor_raw s t) s.handles.length t ht hsrc (n - 1)
    (by rw [hc]; omega)
  unfold share
  refine ⟨?_, ?_⟩
  · rw [h1, hh, List.append_assoc]
    have e : [some ({ m_ptr := t } : bind_ptr)] ++ List.replicate (n - 1) (some { m_ptr := t })
        = List.replicate n (some { m_ptr := t }) := by
      have hn1 : n = (n - 1) + 1 := by omega
      rw [hn1, List.replicate_succ]
      simp
    rw [e]
  · rw [h2, hc, hobj]
    have hn1 : 1 + (n - 1) = n := by omega
    rw [hn1]

/-- Destroying distinct handles bound to `t`, no more of them than the counter of `t`: the
counter drops by their number, and `t` is deleted once exactly if it drops to zero. -/
theorem destroyAll_spec (t : Ptr) (ht : t ≠ nullptr) (hs : List Nat) :
    ∀ (s : State) (c d : Nat), hs.Nodup →
      (∀ h ∈ hs, s.handles[h]? = some (some { m_ptr := t })) →
      s.obj t = { m_ref_count := c, deleted := d } → hs.length ≤ c → c < ULONG_RANGE →
      (destroyAll s hs).obj t =
        { m_ref_count := c - hs.length,
          deleted := d + (if hs.length = c ∧ 0 < hs.length then 1 else 0) } := by
  induction hs with
  | nil =>
    intro s c d _ _ hobj _ _
    simpa [destroyAll] using hobj
  | cons h rest ih =>
    intro s c d hnd hheld hobj hlen hc
    have hh := hheld h (List.mem_cons_self _ _)
    have hload : s.load h = t := by simp [State.load, hh]
    have hdtor : dtor s h = (RefCountBase.unbind_ptr s t).discard h := by
      show (unbind s { m_ptr := s.load h }).discard h = _
      rw [hload, unbind_of_ne s { m_ptr := t } ht]
    simp only [List.length_cons] at hlen
    have hcount : s.count t = c := by simp [State.count, hobj]
    have hobj1 : (dtor s h).obj t
        = { m_ref_count := c - 1, deleted := d + (if c - 1 = 0 then 1 else 0) } := by
      rw [hdtor]
      show (RefCountBase.unbind_ptr s t).obj t = _
      rw [RefCountBase.unbind_ptr_obj, if_pos rfl, hcount, decr_mod c (by omega) hc, hobj]
      by_cases z : c - 1 = 0 <;> simp [z]
    have hheld1 : ∀ k ∈ rest, (dtor s h).handles[k]? = some (some { m_ptr := t }) := by
      intro k hk
      have hne : h ≠ k := by
        intro e
        subst e
        exact (List.nodup_cons.mp hnd).1 hk
      rw [hdtor]
      show ((RefCountBase.unbind_ptr s t).handles.set h none)[k]? = _
      rw [List.getElem?_set_ne hne]
      exact hheld k (List.mem_cons_of_mem _ hk)
    have hrec := ih (dtor s h) (c - 1) _ (List.nodup_cons.mp hnd).2 hheld1 hobj1
      (by omega) (by omega)
    show (destroyAll (dtor s h) rest).obj t = _
    rw [hrec]
    simp only [List.length_cons]
    have e1 : c - 1 - rest.length = c - (rest.length + 1) := by omega
    rw [e1]
    congr 1
    split_ifs <;> omega

/-- C1: for a fresh target `t` of the non-atomic counted base and `n >= 1` handles bound to it
(one constructed from the raw reference, `n - 1` copies), `n` within the range of the counter:
whatever the order in which the handles are destroyed, `t` is alive after each of the first
`n - 1` destructions and is deleted exactly once, by the last one. -/
theorem C1_last_of_n_handles_destroys_target (s : State) (t : Ptr) (n : Nat) (order : List Nat)
    (ht : t ≠ nullptr) (hfresh : s.obj t = fresh) (hn : 1 ≤ n) (hbound : n < ULONG_RANGE)
    (horder : List.Perm order (List.range' s.handles.length n)) :
    (share s t n).count t = n ∧
    (∀ i, i < n → (share s t n).isHandle (s.handles.length + i) = true ∧
      (share s t n).get (s.handles.length + i) = t) ∧
    (∀ k, k < n → (destroyAll (share s t n) (order.take k)).alive t = true ∧
      ((destroyAll (share s t n) (order.take k)).obj t).deleted = 0) ∧
    (destroyAll (share s t n) order).alive t = false ∧
    ((destroyAll (share s t n) order).obj t).deleted = 1 := by
  obtain ⟨hh, hobj⟩ := share_spec s t n ht hfresh hn hbound
  have hslot : ∀ h, s.handles.length ≤ h → h < s.handles.length + n →
      (share s t n).handles[h]? = some (some { m_ptr := t }) := by
    intro h h1 h2
    rw [hh, List.getElem?_append_right h1, List.getElem?_replicate_of_lt (by omega)]
  have hnd : order.Nodup := (horder.nodup_iff).mpr (List.nodup_range' _ _)
  have hlen : order.length = n := by
    rw [horder.length_eq, List.length_range']
  have hmem : ∀ h ∈ order, (share s t n).handles[h]? = some (some { m_ptr := t }) := by
    intro h hm
    have := List.mem_range'_1.mp (horder.mem_iff.mp hm)
    exact hslot h this.1 this.2
  have hpre : ∀ k, k ≤ n → (destroyAll (share s t n) (order.take k)).obj t
      = { m_ref_count := n - k, deleted := 0 + (if k = n ∧ 0 < k then 1 else 0) } := by
    intro k hk
    have hl : (order.take k).length = k := by
      rw [List.length_take, hlen]
      omega
    have h := destroyAll_spec t ht (order.take k) (share s t n) n 0
      ((List.take_sublist k order).nodup hnd)
      (fun h hm => hmem h (List.mem_of_mem_take hm)) hobj (by omega) hbound
    rw [hl] at h
    exact h
  refine ⟨by simp [State.count, hobj], ?_, ?_, ?_, ?_⟩
  · intro i hi
    have hx := hslot (s.handles.length + i) (by omega) (by omega)
    simp [State.isHandle, State.get, bind_ptr.get, State.load, hx]
  · intro k hk
    have hne : ¬ k = n := by omega
    have h := hpre k (by omega)
    simp [State.alive, h, hne]
  · have h := hpre n (Nat.le_refl n)
    rw [List.take_of_length_le (by omega)] at h
    have hpos : 0 < n := by omega
    simp [State.alive, h, hpos]
  · have h := hpre n (Nat.le_refl n)
    rw [List.take_of_length_le (by omega)] at h
    have hpos : 0 < n := by omega
    simp [h, hpos]

/-- Witness for C1: three handles on target `7`, destroyed in the order second, third, first. -/
theorem C1_last_of_n_handles_destroys_target_witness :
    (7 : Ptr) ≠ nullptr ∧ State.init.obj 7 = fresh ∧ 3 < ULONG_RANGE ∧
    List.Perm [1, 2, 0] (List.range' State.init.handles.length 3) ∧
    (∀ k, k < 3 → (destroyAll (share State.init 7 3) ([1, 2, 0].take k)).alive 7 = true ∧
      ((destroyAll (share State.init 7 3) ([1, 2, 0].take k)).obj 7).deleted = 0) ∧
    ((destroyAll (share State.init 7 3) [1, 2, 0]).obj 7).deleted = 1 :=
  have h := C1_last_of_n_handles_destroys_target State.init 7 3 [1, 2, 0] (by decide) rfl
    (by decide) (by decide) (by decide)
  ⟨by decide, rfl, by decide, by decide, h.2.2.1, h.2.2.2.2⟩

/-! ## Construction, emptiness, and the counting hooks -/

/-- C11: constructing a handle from a raw reference `r` stores `r`; if `r` is non-null the only
counting call is one acquire on `r`, which increments its counter without deleting it, so a
fresh target has count exactly 1 afterwards; if `r` is null no counting call is made and the
handle is empty. -/
theorem C11_construct_from_raw_acquires_once (s : State) (r : Ptr) :
    (ctor_raw s r).isHandle s.handles.length = true ∧
    (ctor_raw s r).get s.handles.length = r ∧
    (r ≠ nullptr →
      (ctor_raw s r).calls = s.calls ++ [Call.bind_ptr r] ∧
      (ctor_raw s r).count r = (s.count r + 1) % ULONG_RANGE ∧
      ((ctor_raw s r).obj r).deleted = (s.obj r).deleted ∧
      (s.obj r = fresh → (ctor_raw s r).count r = 1 ∧ (ctor_raw s r).alive r = true) ∧
      (∀ t, t ≠ r → (ctor_raw s r).obj t = s.obj t)) ∧
    (r = nullptr →
      (ctor_raw s r).calls = s.calls ∧ (ctor_raw s r).obj = s.obj ∧
      (ctor_raw s r).toBool s.handles.length = false) := by
  have hlen : (bind_ptr.bind s r).1.handles.length = s.handles.length := by
    rw [bind_handles]
  have hnew : (ctor_raw s r).load s.handles.length = r := by
    have h := State.load_emplace_new (bind_ptr.bind s r).1 (bind_ptr.bind s r).2
    rw [hlen] at h
    exact h
  refine ⟨?_, hnew, ?_, ?_⟩
  · have h := State.isHandle_emplace_new (bind_ptr.bind s r).1 (bind_ptr.bind s r).2
    rw [hlen] at h
    exact h
  · intro hr
    have hobj : ∀ q, (ctor_raw s r).obj q = (RefCountBase.bind_ptr s r).obj q := by
      intro q
      show ((bind_ptr.bind s r).1.emplace _).obj q = _
      rw [bind_ptr.bind_of_ne s r hr]
      rfl
    have hcount : (ctor_raw s r).count r = (s.count r + 1) % ULONG_RANGE := by
      show ((ctor_raw s r).obj r).m_ref_count = _
      rw [hobj, RefCountBase.bind_ptr_obj, if_pos rfl]
    have hdel : ((ctor_raw s r).obj r).deleted = (s.obj r).deleted := by
      rw [hobj, RefCountBase.bind_ptr_obj, if_pos rfl]
    refine ⟨?_, hcount, hdel, ?_, ?_⟩
    · show ((bind_ptr.bind s r).1.emplace _).calls = _
      rw [bind_ptr.bind_of_ne s r hr]
      rfl
    · intro hf
      refine ⟨?_, ?_⟩
      · rw [hcount]
        simp only [State.count, hf, fresh]
        decide
      · simp only [State.alive, hdel, hf, fresh]
        rfl
    · intro t ht
      rw [hobj, RefCountBase.bind_ptr_obj, if_neg ht]
  · intro hr
    refine ⟨?_, ?_, ?_⟩
    · show ((bind_ptr.bind s r).1.emplace _).calls = _
      rw [bind_ptr.bind_of_eq s r hr]
      rfl
    · show ((bind_ptr.bind s r).1.emplace _).obj = _
      rw [bind_ptr.bind_of_eq s r hr]
      rfl
    · show decide ((ctor_raw s r).load s.handles.length ≠ 0) = false
      rw [hnew, hr]
      rfl

/-- Witness for C11: a handle is constructed from the fresh target `7`. -/
theorem C11_construct_from_raw_acquires_once_witness :
    (7 : Ptr) ≠ nullptr ∧ State.init.obj 7 = fresh ∧
    (ctor_raw State.init 7).get 0 = 7 ∧
    (ctor_raw State.init 7).calls = State.init.calls ++ [Call.bind_ptr 7] ∧
    (ctor_raw State.init 7).count 7 = 1 :=
  have h := C11_construct_from_raw_acquires_once State.init 7
  ⟨by decide, rfl, h.2.1, (h.2.2.1 (by decide)).1, ((h.2.2.1 (by decide)).2.2.2.1 rfl).1⟩

/-- C12: a default-constructed handle converts to false and `get()` returns null; its
construction and its destruction make no counting call and change no target; and for every
handle the boolean conversion is true iff `get()` is non-null. -/
theorem C12_empty_handle_is_false_and_silent (s : State) :
    (ctor_default s).isHandle s.handles.length = true ∧
    (ctor_default s).toBool s.handles.length = false ∧
    (ctor_default s).get s.handles.length = nullptr ∧
    (ctor_default s).calls = s.calls ∧ (ctor_default s).obj = s.obj ∧
    (dtor (ctor_default s) s.handles.length).calls = s.calls ∧
    (dtor (ctor_default s) s.handles.length).obj = s.obj ∧
    (∀ b : bind_ptr, b.toBool = true ↔ b.get ≠ nullptr) ∧
    (∀ (s1 : State) (k : Nat), s1.toBool k = true ↔ s1.get k ≠ nullptr) := by
  have hnew : (ctor_default s).load s.handles.length = nullptr :=
    State.load_emplace_new s { m_ptr := nullptr }
  have hd : dtor (ctor_default s) s.handles.length
      = (ctor_default s).discard s.handles.length := by
    show (unbind (ctor_default s) { m_ptr := (ctor_default s).load s.handles.length }).discard _
      = _
    rw [hnew, unbind_of_eq _ { m_ptr := nullptr } rfl]
  refine ⟨State.isHandle_emplace_new s _, ?_, hnew, rfl, rfl, ?_, ?_, ?_, ?_⟩
  · show decide ((ctor_default s).load s.handles.length ≠ 0) = false
    rw [hnew]
    rfl
  · rw [hd]
    rfl
  · rw [hd]
    rfl
  · intro b
    simp [bind_ptr.toBool, bind_ptr.get, nullptr]
  · intro s1 k
    simp [State.toBool, State.get, bind_ptr.toBool, bind_ptr.get, nullptr]

/-- C13: for `RefCountBase`, acquire increments the counter (by exactly one unless it wraps at
the top of `unsigned long`) and never deletes the target; release-or-destroy decrements the
counter (by exactly one from a count of at least one) and deletes the target exactly when the
decremented value is zero, so from a count `c >= 1` the target is deleted iff `c == 1`; neither
touches another target or a handle. -/
theorem C13_counted_base_hooks (s : State) (t : Ptr) :
    (RefCountBase.bind_ptr s t).count t = (s.count t + 1) % ULONG_RANGE ∧
    (s.count t + 1 < ULONG_RANGE → (RefCountBase.bind_ptr s t).count t = s.count t + 1) ∧
    ((RefCountBase.bind_ptr s t).obj t).deleted = (s.obj t).deleted ∧
    (RefCountBase.unbind_ptr s t).count t = (s.count t + (ULONG_RANGE - 1)) % ULONG_RANGE ∧
    (1 ≤ s.count t → s.count t < ULONG_RANGE →
      (RefCountBase.unbind_ptr s t).count t = s.count t - 1) ∧
    ((RefCountBase.unbind_ptr s t).obj t).deleted
      = (s.obj t).deleted + (if (RefCountBase.unbind_ptr s t).count t = 0 then 1 else 0) ∧
    (1 ≤ s.count t → s.count t < ULONG_RANGE →
      (((RefCountBase.unbind_ptr s t).obj t).deleted = (s.obj t).deleted + 1 ↔ s.count t = 1)) ∧
    (∀ q, q ≠ t → (RefCountBase.bind_ptr s t).obj q = s.obj q ∧
      (RefCountBase.unbind_ptr s t).obj q = s.obj q) ∧
    (RefCountBase.bind_ptr s t).handles = s.handles ∧
    (RefCountBase.unbind_ptr s t).handles = s.handles := by
  have hb : (RefCountBase.bind_ptr s t).count t = (s.count t + 1) % ULONG_RANGE := by
    show ((RefCountBase.bind_ptr s t).obj t).m_ref_count = _
    rw [RefCountBase.bind_ptr_obj, if_pos rfl]
  have hu : (RefCountBase.unbind_ptr s t).count t
      = (s.count t + (ULONG_RANGE - 1)) % ULONG_RANGE := by
    show ((RefCountBase.unbind_ptr s t).obj t).m_ref_count = _
    rw [RefCountBase.unbind_ptr_obj, if_pos rfl]
  have hud : ((RefCountBase.unbind_ptr s t).obj t).deleted
      = (s.obj t).deleted + (if (RefCountBase.unbind_ptr s t).count t = 0 then 1 else 0) := by
    rw [hu, RefCountBase.unbind_ptr_obj, if_pos rfl]
    by_cases z : (s.count t + (ULONG_RANGE - 1)) % ULONG_RANGE = 0
    · simp only [z, if_true]
    · simp only [z, if_false, Nat.add_zero]
  refine ⟨hb, ?_, ?_, hu, ?_, hud, ?_, ?_, rfl, rfl⟩
  · intro h
    rw [hb, Nat.mod_eq_of_lt h]
  · rw [RefCountBase.bind_ptr_obj, if_pos rfl]
  · intro h1 h2
    rw [hu]
    exact decr_mod _ h1 h2
  · intro h1 h2
    have hc : (RefCountBase.unbind_ptr s t).count t = s.count t - 1 := by
      rw [hu]
      exact decr_mod _ h1 h2
    rw [hud, hc]
    split_ifs <;> omega
  · intro q hq
    rw [RefCountBase.bind_ptr_obj, RefCountBase.unbind_ptr_obj, if_neg hq, if_neg hq]
    exact ⟨rfl, rfl⟩

/-- Witness for C13: the hooks on a target with count 1. -/
theorem C13_counted_base_hooks_witness :
    (ctor_raw State.init 7).count 7 + 1 < ULONG_RANGE ∧
    1 ≤ (ctor_raw State.init 7).count 7 ∧ (ctor_raw State.init 7).count 7 < ULONG_RANGE ∧
    (RefCountBase.bind_ptr (ctor_raw State.init 7) 7).count 7
      = (ctor_raw State.init 7).count 7 + 1 ∧
    (RefCountBase.unbind_ptr (ctor_raw State.init 7) 7).count 7
      = (ctor_raw State.init 7).count 7 - 1 ∧
    (((RefCountBase.unbind_ptr (ctor_raw State.init 7) 7).obj 7).deleted
      = ((ctor_raw State.init 7).obj 7).deleted + 1 ↔ (ctor_raw State.init 7).count 7 = 1) :=
  have h := C13_counted_base_hooks (ctor_raw State.init 7) 7
  ⟨by decide, by decide, by decide, h.2.1 (by decide), h.2.2.2.2.1 (by decide) (by decide),
    h.2.2.2.2.2.2.1 (by decide) (by decide)⟩

/-! ## Closed forms of the operations that go through a temporary -/

/-- Increment then decrement of an in-range `unsigned long` gives the value back, also when the
increment wraps. -/
theorem incr_decr_mod (c : Nat) (h : c < ULONG_RANGE) :
    ((c + 1) % ULONG_RANGE + (ULONG_RANGE - 1)) % ULONG_RANGE = c := by
  have hpos := ULONG_RANGE_pos
  rw [Nat.add_mod, Nat.mod_mod, ← Nat.add_mod]
  have e : c + 1 + (ULONG_RANGE - 1) = c + ULONG_RANGE := by omega
  rw [e, Nat.add_mod_right, Nat.mod_eq_of_lt h]

/-- Storing into an existing handle the reference it already holds changes nothing. -/
theorem State.set_load_self (s : State) (k : Nat) (hk : s.isHandle k = true) :
    s.handles.set k (some { m_ptr := s.load k }) = s.handles := by
  have hx := s.lookup_of_isHandle k hk
  apply List.ext_getElem?
  intro i
  by_cases e : k = i
  · subst e
    rw [List.getElem?_set', if_pos rfl, hx]
    rfl
  · rw [List.getElem?_set_ne e]

theorem bind_ptr.assign_copy_eq (s : State) (self p : Nat) :
    assign_copy s self p = { unbind (bind_ptr.bind s (s.load p)).1 { m_ptr := s.load self } with
      handles := s.handles.set self (some { m_ptr := s.load p }) } := by
  have hl : (bind_ptr.bind s (s.load p)).1.load self = s.load self :=
    State.load_of_handles_eq (bind_handles s _) self
  show unbind ((bind_ptr.bind s (s.load p)).1.store self (s.load p))
    { m_ptr := (bind_ptr.bind s (s.load p)).1.load self } = _
  rw [hl, show (bind_ptr.bind s (s.load p)).1.store self (s.load p)
      = { (bind_ptr.bind s (s.load p)).1 with
          handles := s.handles.set self (some { m_ptr := s.load p }) } from by
    simp [State.store, bind_handles]]
  exact unbind_with_handles _ _ _

theorem bind_ptr.reset_raw_eq (s : State) (self : Nat) (p : Ptr) :
    reset_raw s self p = { unbind (bind_ptr.bind s p).1 { m_ptr := s.load self } with
      handles := s.handles.set self (some { m_ptr := p }) } := by
  have hl : (bind_ptr.bind s p).1.load self = s.load self :=
    State.load_of_handles_eq (bind_handles s _) self
  show unbind ((bind_ptr.bind s p).1.store self p)
    { m_ptr := (bind_ptr.bind s p).1.load self } = _
  rw [hl, show (bind_ptr.bind s p).1.store self p
      = { (bind_ptr.bind s p).1 with handles := s.handles.set self (some { m_ptr := p }) } from by
    simp [State.store, bind_handles]]
  exact unbind_with_handles _ _ _

theorem bind_ptr.reset_eq (s : State) (self : Nat) :
    reset s self = { unbind s { m_ptr := s.load self } with
      handles := s.handles.set self (some { m_ptr := nullptr }) } :=
  unbind_with_handles s _ _

theorem bind_ptr.assign_move_eq (s : State) (self p : Nat) :
    assign_move s self p = { unbind s { m_ptr := (s.store p nullptr).load self } with
      handles := (s.handles.set p (some { m_ptr := nullptr })).set self
        (some { m_ptr := s.load p }) } :=
  unbind_with_handles s _ _

theorem bind_ptr.dtor_eq_handles (s : State) (k : Nat) :
    dtor s k = { unbind s { m_ptr := s.load k } with handles := s.handles.set k none } := by
  rw [dtor_eq]
  exact unbind_with_handles s _ _

/-- The targets after an acquire of `x` followed by a release of `y`, at a target that is
neither. -/
theorem bind_ptr.effect_obj_other (s : State) (x y t : Ptr) (hx : t ≠ x) (hy : t ≠ y) :
    (unbind (bind_ptr.bind s x).1 { m_ptr := y }).obj t = s.obj t := by
  have h1 : (bind_ptr.bind s x).1.obj t = s.obj t := by
    by_cases e : x = nullptr
    · rw [bind_ptr.bind_of_eq s x e]
    · rw [bind_ptr.bind_of_ne s x e, RefCountBase.bind_ptr_obj, if_neg hx]
  by_cases e : y = nullptr
  · rw [unbind_of_eq _ { m_ptr := y } e, h1]
  · rw [unbind_of_ne _ { m_ptr := y } e, RefCountBase.unbind_ptr_obj, if_neg hy, h1]

theorem bind_ptr.effect_calls (s : State) (x y : Ptr) :
    (unbind (bind_ptr.bind s x).1 { m_ptr := y }).calls
      = s.calls ++ acquireCalls x ++ releaseCalls y := by
  rw [unbind_calls, bind_calls]

/-- An acquire never changes the deletion counter of any target. -/
theorem bind_ptr.bind_deleted (s : State) (x t : Ptr) :
    ((bind_ptr.bind s x).1.obj t).deleted = (s.obj t).deleted := by
  by_cases e : x = nullptr
  · rw [bind_ptr.bind_of_eq s x e]
  · rw [bind_ptr.bind_of_ne s x e, RefCountBase.bind_ptr_obj]
    by_cases q : t = x
    · rw [if_pos q, q]
    · rw [if_neg q]

/-- A release of `y` deletes `y` exactly when its decremented counter is zero, and deletes
nothing else. -/
theorem bind_ptr.unbind_deleted (s : State) (y t : Ptr) :
    ((unbind s { m_ptr := y }).obj t).deleted
      = (s.obj t).deleted
        + (if t = y ∧ y ≠ nullptr ∧ (unbind s { m_ptr := y }).count t = 0 then 1 else 0) := by
  by_cases e : y = nullptr
  · rw [unbind_of_eq _ { m_ptr := y } e]
    simp [e]
  · rw [unbind_of_ne _ { m_ptr := y } e]
    simp only [State.count, RefCountBase.unbind_ptr_obj]
    by_cases q : t = y
    · subst q
      by_cases z : ((s.obj t).m_ref_count + (ULONG_RANGE - 1)) % ULONG_RANGE = 0
      · simp only [if_true, z, e, ne_eq, not_false_eq_true, and_self]
      · simp only [if_true, z, if_false, and_false, and_true, Nat.add_zero]
    · simp only [q, if_false, false_and, Nat.add_zero]

/-- Rebinding a handle to the live target it already holds (acquire, swap with the temporary,
release): targets and handles end as they began, and two calls are logged. -/
theorem bind_ptr.rebind_self (s : State) (a : Nat) (ha : s.isHandle a = true)
    (hb : s.load a ≠ nullptr) (h1 : 1 ≤ s.count (s.load a))
    (h2 : s.count (s.load a) < ULONG_RANGE) :
    (assign_copy s a a).obj = s.obj ∧ (assign_copy s a a).handles = s.handles ∧
    (assign_copy s a a).calls
      = s.calls ++ [Call.bind_ptr (s.load a), Call.unbind_ptr (s.load a)] := by
  rw [assign_copy_eq]
  refine ⟨?_, s.set_load_self a ha, ?_⟩
  · show (unbind (bind_ptr.bind s (s.load a)).1 { m_ptr := s.load a }).obj = s.obj
    funext q
    by_cases e : q = s.load a
    · rw [e, unbind_of_ne _ { m_ptr := s.load a } hb, RefCountBase.unbind_ptr_obj, if_pos rfl,
        bind_ptr.bind_of_ne s _ hb]
      simp only [State.count, RefCountBase.bind_ptr_obj, if_true]
      have hr := incr_decr_mod _ h2
      simp only [State.count] at hr h1
      simp only [hr]
      have hnz : ¬ (s.obj (s.load a)).m_ref_count = 0 := by omega
      simp only [hnz, if_false]
    · exact effect_obj_other s _ _ q e e
  · show (unbind (bind_ptr.bind s (s.load a)).1 { m_ptr := s.load a }).calls = _
    rw [effect_calls]
    simp [acquireCalls, releaseCalls, hb]

/-! ## Assignment -/

/-- C14: copy-assignment `a = b` for distinct handles: afterwards `a.get() == b.get()` and `b`
is unchanged; the counting calls are one acquire on the target of `b` (if bound) and one
release-or-destroy on the target `a` held (if bound), and no other; that target is deleted
exactly when the release brings its counter to zero, and no other target is deleted. -/
theorem C14_copy_assign_distinct (s : State) (a b : Nat) (ha : s.isHandle a = true)
    (hb : s.isHandle b = true) (hab : a ≠ b) :
    (assign_copy s a b).get a = s.get b ∧ (assign_copy s a b).get b = s.get b ∧
    (assign_copy s a b).isHandle a = true ∧ (assign_copy s a b).isHandle b = true ∧
    (assign_copy s a b).calls = s.calls ++ acquireCalls (s.get b) ++ releaseCalls (s.get a) ∧
    (assign_copy s a b).obj
      = (unbind (bind_ptr.bind s (s.get b)).1 { m_ptr := s.get a }).obj ∧
    (s.get a ≠ nullptr →
      ((assign_copy s a b).obj (s.get a)).deleted = (s.obj (s.get a)).deleted
        + (if (assign_copy s a b).count (s.get a) = 0 then 1 else 0)) ∧
    (∀ t, t ≠ s.get a → ((assign_copy s a b).obj t).deleted = (s.obj t).deleted) ∧
    (∀ t, t ≠ s.get a → t ≠ s.get b → (assign_copy s a b).obj t = s.obj t) := by
  have hla := s.isHandle_lt a ha
  have hobj : (assign_copy s a b).obj
      = (unbind (bind_ptr.bind s (s.load b)).1 { m_ptr := s.load a }).obj := by
    rw [assign_copy_eq]
  have hdel : ∀ t, ((assign_copy s a b).obj t).deleted = (s.obj t).deleted
      + (if t = s.load a ∧ s.load a ≠ nullptr ∧ (assign_copy s a b).count t = 0
          then 1 else 0) := by
    intro t
    have h := unbind_deleted (bind_ptr.bind s (s.load b)).1 (s.load a) t
    rw [bind_deleted] at h
    simp only [State.count, hobj]
    exact h
  simp only [State.get_eq_load]
  refine ⟨?_, ?_, ?_, ?_, ?_, hobj, ?_, ?_, ?_⟩
  · rw [assign_copy_eq]
    simp [State.load, hla]
  · rw [assign_copy_eq]
    simp [State.load, List.getElem?_set_ne hab]
  · rw [assign_copy_eq]
    simp [State.isHandle, hla]
  · rw [assign_copy_eq]
    simpa [State.isHandle, List.getElem?_set_ne hab] using hb
  · rw [assign_copy_eq]
    exact effect_calls s _ _
  · intro hne
    rw [hdel]
    simp only [hne, ne_eq, not_false_eq_true, true_and]
  · intro t ht
    rw [hdel]
    simp only [ht, false_and, if_false, Nat.add_zero]
  · intro t hta htb
    rw [hobj]
    exact effect_obj_other s _ _ t htb hta

/-- Witness for C14: a handle on target `7` is assigned a handle on target `9`. -/
theorem C14_copy_assign_distinct_witness :
    (ctor_raw (ctor_raw State.init 7) 9).isHandle 0 = true ∧
    (ctor_raw (ctor_raw State.init 7) 9).isHandle 1 = true ∧ (0 : Nat) ≠ 1 ∧
    (assign_copy (ctor_raw (ctor_raw State.init 7) 9) 0 1).get 0
      = (ctor_raw (ctor_raw State.init 7) 9).get 1 ∧
    (assign_copy (ctor_raw (ctor_raw State.init 7) 9) 0 1).calls
      = (ctor_raw (ctor_raw State.init 7) 9).calls
        ++ acquireCalls ((ctor_raw (ctor_raw State.init 7) 9).get 1)
        ++ releaseCalls ((ctor_raw (ctor_raw State.init 7) 9).get 0) :=
  have h := C14_copy_assign_distinct (ctor_raw (ctor_raw State.init 7) 9) 0 1 (by decide)
    (by decide) (by decide)
  ⟨by decide, by decide, by decide, h.1, h.2.2.2.2.1⟩

/-- C16: self copy-assignment `a = a` on a handle bound to a live target with count `c >= 1`
(also the sole owner, `c == 1`) leaves `a` holding the same reference, every target (count,
liveness) and every handle as before; in between the counter is `c + 1`, not zero, when that
fits `unsigned long`. -/
theorem C16_self_copy_assign_is_identity (s : State) (a : Nat) (ha : s.isHandle a = true)
    (hb : s.get a ≠ nullptr) (hlive : s.alive (s.get a) = true)
    (h1 : 1 ≤ s.count (s.get a)) (h2 : s.count (s.get a) < ULONG_RANGE) :
    (assign_copy s a a).get a = s.get a ∧ (assign_copy s a a).isHandle a = true ∧
    (assign_copy s a a).alive (s.get a) = true ∧
    (assign_copy s a a).count (s.get a) = s.count (s.get a) ∧
    (assign_copy s a a).obj = s.obj ∧ (assign_copy s a a).handles = s.handles ∧
    (assign_copy s a a).calls
      = s.calls ++ [Call.bind_ptr (s.get a), Call.unbind_ptr (s.get a)] ∧
    (s.count (s.get a) + 1 < ULONG_RANGE →
      (bind_ptr.bind s (s.get a)).1.count (s.get a) = s.count (s.get a) + 1 ∧
      (bind_ptr.bind s (s.get a)).1.count (s.get a) ≠ 0) := by
  obtain ⟨hobj, hh, hcalls⟩ := rebind_self s a ha hb h1 h2
  refine ⟨?_, ?_, ?_, ?_, hobj, hh, hcalls, ?_⟩
  · exact State.load_of_handles_eq hh a
  · rw [State.isHandle_of_handles_eq hh a]
    exact ha
  · simp only [State.alive, hobj]
    exact hlive
  · simp only [State.count, hobj]
  · intro h3
    have hb1 : s.load a ≠ nullptr := hb
    simp only [State.get_eq_load]
    have hc : (bind_ptr.bind s (s.load a)).1.count (s.load a) = s.count (s.load a) + 1 := by
      show ((bind_ptr.bind s (s.load a)).1.obj (s.load a)).m_ref_count = _
      rw [bind_ptr.bind_of_ne s _ hb1, RefCountBase.bind_ptr_obj, if_pos rfl]
      exact Nat.mod_eq_of_lt h3
    exact ⟨hc, by omega⟩

/-- Witness for C16: the sole owner of target `7` is assigned to itself. -/
theorem C16_self_copy_assign_is_identity_witness :
    (ctor_raw State.init 7).isHandle 0 = true ∧ (ctor_raw State.init 7).get 0 ≠ nullptr ∧
    (ctor_raw State.init 7).count ((ctor_raw State.init 7).get 0) = 1 ∧
    (assign_copy (ctor_raw State.init 7) 0 0).get 0 = (ctor_raw State.init 7).get 0 ∧
    (assign_copy (ctor_raw State.init 7) 0 0).alive ((ctor_raw State.init 7).get 0) = true ∧
    (assign_copy (ctor_raw State.init 7) 0 0).count ((ctor_raw State.init 7).get 0)
      = (ctor_raw State.init 7).count ((ctor_raw State.init 7).get 0) :=
  have h := C16_self_copy_assign_is_identity (ctor_raw State.init 7) 0 (by decide) (by decide)
    (by decide) (by decide) (by decide)
  ⟨by decide, by decide, by decide, h.1, h.2.2.1, h.2.2.2.1⟩

/-- C17: `p.reset(p.get())` on a handle bound to a live target with count `c >= 1` (also
`c == 1`) never deletes the target: `p` holds the same reference, the target is alive and its
count is `c`. -/
theorem C17_reset_to_held_reference_keeps_target (s : State) (p : Nat)
    (hp : s.isHandle p = true) (hb : s.get p ≠ nullptr) (hlive : s.alive (s.get p) = true)
    (h1 : 1 ≤ s.count (s.get p)) (h2 : s.count (s.get p) < ULONG_RANGE) :
    (reset_raw s p (s.get p)).get p = s.get p ∧
    (reset_raw s p (s.get p)).isHandle p = true ∧
    (reset_raw s p (s.get p)).alive (s.get p) = true ∧
    (reset_raw s p (s.get p)).count (s.get p) = s.count (s.get p) ∧
    ((reset_raw s p (s.get p)).obj (s.get p)).deleted = (s.obj (s.get p)).deleted ∧
    (reset_raw s p (s.get p)).obj = s.obj := by
  have hsame : reset_raw s p (s.get p) = assign_copy s p p := rfl
  obtain ⟨hobj, hh, _⟩ := rebind_self s p hp hb h1 h2
  rw [hsame]
  refine ⟨?_, ?_, ?_, ?_, ?_, hobj⟩
  · exact State.load_of_handles_eq hh p
  · rw [State.isHandle_of_handles_eq hh p]
    exact hp
  · simp only [State.alive, hobj]
    exact hlive
  · simp only [State.count, hobj]
  · rw [hobj]

/-- Witness for C17: the sole owner of target `7` is reset to the reference it holds. -/
theorem C17_reset_to_held_reference_keeps_target_witness :
    (ctor_raw State.init 7).isHandle 0 = true ∧ (ctor_raw State.init 7).get 0 ≠ nullptr ∧
    (ctor_raw State.init 7).count ((ctor_raw State.init 7).get 0) = 1 ∧
    (reset_raw (ctor_raw State.init 7) 0 ((ctor_raw State.init 7).get 0)).alive
      ((ctor_raw State.init 7).get 0) = true ∧
    (reset_raw (ctor_raw State.init 7) 0 ((ctor_raw State.init 7).get 0)).count
      ((ctor_raw State.init 7).get 0)
      = (ctor_raw State.init 7).count ((ctor_raw State.init 7).get 0) :=
  have h := C17_reset_to_held_reference_keeps_target (ctor_raw State.init 7) 0 (by decide)
    (by decide) (by decide) (by decide) (by decide)
  ⟨by decide, by decide, by decide, h.2.2.1, h.2.2.2.1⟩

/-- C18 as stated fails: two distinct handles are bound to the same target `7` (count 2);
move-assigning one to the other invokes release-or-destroy on the moved target and lowers its
count to 1. -/
theorem C18_move_assign_same_target_counterexample :
    (ctor_raw (ctor_raw State.init 7) 7).isHandle 0 = true ∧
    (ctor_raw (ctor_raw State.init 7) 7).isHandle 1 = true ∧ (0 : Nat) ≠ 1 ∧
    (ctor_raw (ctor_raw State.init 7) 7).get 0 = 7 ∧
    (ctor_raw (ctor_raw State.init 7) 7).get 1 = 7 ∧
    (ctor_raw (ctor_raw State.init 7) 7).count 7 = 2 ∧
    (assign_move (ctor_raw (ctor_raw State.init 7) 7) 0 1).get 0 = 7 ∧
    (assign_move (ctor_raw (ctor_raw State.init 7) 7) 0 1).get 1 = nullptr ∧
    (assign_move (ctor_raw (ctor_raw State.init 7) 7) 0 1).count 7 = 1 ∧
    (assign_move (ctor_raw (ctor_raw State.init 7) 7) 0 1).calls
      = (ctor_raw (ctor_raw State.init 7) 7).calls ++ [Call.unbind_ptr 7] := by
  decide

/-- C18 (amended): move-assignment `dst = move(src)` for distinct handles leaves `dst` holding
the reference `src` held and `src` empty; no acquire is invoked and the only counting call is
one release-or-destroy on the target `dst` held before (if any), which is deleted exactly when
its counter reaches zero; every other target, so the moved target when `dst` did not already
hold it, is unchanged. Self move-assignment leaves the state, so the held reference and the
call log, as it was. -/
theorem C18_move_assign_releases_old_only (s : State) (dst src : Nat)
    (hd : s.isHandle dst = true) (hs : s.isHandle src = true) :
    (dst ≠ src →
      (assign_move s dst src).get dst = s.get src ∧
      (assign_move s dst src).get src = nullptr ∧
      (assign_move s dst src).isHandle dst = true ∧
      (assign_move s dst src).isHandle src = true ∧
      (assign_move s dst src).calls = s.calls ++ releaseCalls (s.get dst) ∧
      (assign_move s dst src).obj = (unbind s { m_ptr := s.get dst }).obj ∧
      (s.get dst ≠ nullptr →
        ((assign_move s dst src).obj (s.get dst)).deleted = (s.obj (s.get dst)).deleted
          + (if (assign_move s dst src).count (s.get dst) = 0 then 1 else 0)) ∧
      (∀ t, t ≠ s.get dst → (assign_move s dst src).obj t = s.obj t) ∧
      (s.get src ≠ s.get dst →
        (assign_move s dst src).count (s.get src) = s.count (s.get src) ∧
        (assign_move s dst src).alive (s.get src) = s.alive (s.get src))) ∧
    assign_move s dst dst = s ∧
    (assign_move s dst dst).get dst = s.get dst ∧
    (assign_move s dst dst).calls = s.calls := by
  have hld := s.isHandle_lt dst hd
  have hls := s.isHandle_lt src hs
  have hself : assign_move s dst dst = s := by
    rw [assign_move_eq, State.load_store_same s dst nullptr hld,
      unbind_of_eq s { m_ptr := nullptr } rfl, List.set_set, s.set_load_self dst hd]
  refine ⟨?_, hself, by rw [hself], by rw [hself]⟩
  intro hne
  have hl : (s.store src nullptr).load dst = s.load dst :=
    State.load_store_other s src dst nullptr (Ne.symm hne)
  have hform : assign_move s dst src = { unbind s { m_ptr := s.load dst } with
      handles := (s.handles.set src (some { m_ptr := nullptr })).set dst
        (some { m_ptr := s.load src }) } := by
    rw [assign_move_eq, hl]
  have hobj : (assign_move s dst src).obj = (unbind s { m_ptr := s.load dst }).obj := by
    rw [hform]
  have hdel : ∀ t, ((assign_move s dst src).obj t).deleted = (s.obj t).deleted
      + (if t = s.load dst ∧ s.load dst ≠ nullptr ∧ (assign_move s dst src).count t = 0
          then 1 else 0) := by
    intro t
    have h := unbind_deleted s (s.load dst) t
    simp only [State.count, hobj]
    exact h
  have hother : ∀ t, t ≠ s.load dst → (assign_move s dst src).obj t = s.obj t := by
    intro t ht
    rw [hobj]
    have h := effect_obj_other s nullptr (s.load dst) t
    rw [bind_ptr.bind_of_eq s nullptr rfl] at h
    by_cases z : t = nullptr
    · have hz : s.load dst ≠ nullptr := fun e => ht (z.trans e.symm)
      rw [unbind_of_ne s { m_ptr := s.load dst } hz, RefCountBase.unbind_ptr_obj, if_neg ht]
    · exact h z ht
  simp only [State.get_eq_load]
  refine ⟨?_, ?_, ?_, ?_, ?_, hobj, ?_, hother, ?_⟩
  · rw [hform]
    simp [State.load, hld]
  · rw [hform]
    simp [State.load, List.getElem?_set_ne hne, hls]
  · rw [hform]
    simp [State.isHandle, hld]
  · rw [hform]
    simp [State.isHandle, List.getElem?_set_ne hne, hls]
  · rw [hform]
    exact unbind_calls s _
  · intro hb
    rw [hdel]
    simp only [hb, ne_eq, not_false_eq_true, true_and]
  · intro hdiff
    have h := hother (s.load src) hdiff
    exact ⟨by simp only [State.count, h], by simp only [State.alive, h]⟩

/-- Witness for C18 (amended): a handle on target `7` is move-assigned a handle on target
`9`. -/
theorem C18_move_assign_releases_old_only_witness :
    (ctor_raw (ctor_raw State.init 7) 9).isHandle 0 = true ∧
    (ctor_raw (ctor_raw State.init 7) 9).isHandle 1 = true ∧ (0 : Nat) ≠ 1 ∧
    (assign_move (ctor_raw (ctor_raw State.init 7) 9) 0 1).get 0
      = (ctor_raw (ctor_raw State.init 7) 9).get 1 ∧
    (assign_move (ctor_raw (ctor_raw State.init 7) 9) 0 1).get 1 = nullptr ∧
    (assign_move (ctor_raw (ctor_raw State.init 7) 9) 0 1).calls
      = (ctor_raw (ctor_raw State.init 7) 9).calls
        ++ releaseCalls ((ctor_raw (ctor_raw State.init 7) 9).get 0) ∧
    assign_move (ctor_raw (ctor_raw State.init 7) 9) 0 0 = ctor_raw (ctor_raw State.init 7) 9 :=
  have h := C18_move_assign_releases_old_only (ctor_raw (ctor_raw State.init 7) 9) 0 1
    (by decide) (by decide)
  ⟨by decide, by decide, by decide, (h.1 (by decide)).1, (h.1 (by decide)).2.1,
    (h.1 (by decide)).2.2.2.2.1, h.2.1⟩

/-! ## Swap -/

theorem bind_ptr.swap_lookup (s : State) (a b i : Nat) (ha : s.isHandle a = true)
    (hb : s.isHandle b = true) :
    (swap s a b).handles[i]?
      = if i = a then s.handles[b]? else if i = b then s.handles[a]? else s.handles[i]? := by
  have hla := s.isHandle_lt a ha
  have hlb := s.isHandle_lt b hb
  have hxa := s.lookup_of_isHandle a ha
  have hxb := s.lookup_of_isHandle b hb
  show ((s.handles.set a (some { m_ptr := s.load b })).set b (some { m_ptr := s.load a }))[i]?
    = _
  by_cases e1 : i = b
  · subst e1
    rw [List.getElem?_set', if_pos rfl]
    by_cases e2 : i = a
    · subst e2
      simp [hxa, hla]
    · simp [e2, hxa, hxb, List.getElem?_set_ne (Ne.symm e2)]
  · rw [List.getElem?_set_ne (Ne.symm e1)]
    by_cases e2 : i = a
    · subst e2
      simp [hxb, hla]
    · simp [e1, e2, List.getElem?_set_ne (Ne.symm e2)]

theorem bind_ptr.swap_eq_of_handles (s : State) (a b : Nat) (l : List (Option bind_ptr))
    (h : (swap s a b).handles = l) : swap s a b = { s with handles := l } := by
  rw [← h]
  rfl

/-- C20: swapping two handles twice restores the state, so both held references;
`a.swap(b)` has the same effect as `b.swap(a)`; and `a.swap(a)` leaves everything unchanged. -/
theorem C20_swap_is_an_involution (s : State) (a b : Nat) (ha : s.isHandle a = true)
    (hb : s.isHandle b = true) :
    swap (swap s a b) a b = s ∧
    (swap (swap s a b) a b).get a = s.get a ∧ (swap (swap s a b) a b).get b = s.get b ∧
    swap s a b = swap s b a ∧
    swap s a a = s ∧ (swap s a a).get a = s.get a := by
  have ha1 : (swap s a b).isHandle a = true :=
    State.isHandle_store _ _ _ _ (State.isHandle_store _ _ _ _ ha)
  have hb1 : (swap s a b).isHandle b = true :=
    State.isHandle_store _ _ _ _ (State.isHandle_store _ _ _ _ hb)
  have htwice : swap (swap s a b) a b = s := by
    have hl : (swap (swap s a b) a b).handles = s.handles := by
      apply List.ext_getElem?
      intro i
      rw [swap_lookup _ a b i ha1 hb1, swap_lookup s a b b ha hb, swap_lookup s a b a ha hb,
        swap_lookup s a b i ha hb]
      by_cases e1 : i = a
      · subst e1
        by_cases e2 : b = i
        · subst e2
          simp
        · simp [e2]
      · by_cases e2 : i = b
        · subst e2
          simp [e1]
        · simp [e1, e2]
    rw [swap_eq_of_handles _ a b _ hl]
    rfl
  have hcomm : swap s a b = swap s b a := by
    have hl : (swap s a b).handles = (swap s b a).handles := by
      apply List.ext_getElem?
      intro i
      rw [swap_lookup s a b i ha hb, swap_lookup s b a i hb ha]
      by_cases e1 : i = a
      · subst e1
        by_cases e2 : i = b
        · subst e2
          simp
        · simp [e2]
      · simp [e1]
    rw [swap_eq_of_handles s a b _ hl]
    rfl
  have hselfswap : swap s a a = s := by
    have hl : (swap s a a).handles = s.handles := by
      apply List.ext_getElem?
      intro i
      rw [swap_lookup s a a i ha ha]
      by_cases e1 : i = a
      · subst e1
        simp
      · simp [e1]
    rw [swap_eq_of_handles s a a _ hl]
  exact ⟨htwice, by rw [htwice], by rw [htwice], hcomm, hselfswap, by rw [hselfswap]⟩

/-- Witness for C20: handles on targets `7` and `9` are swapped. -/
theorem C20_swap_is_an_involution_witness :
    (ctor_raw (ctor_raw State.init 7) 9).isHandle 0 = true ∧
    (ctor_raw (ctor_raw State.init 7) 9).isHandle 1 = true ∧
    swap (swap (ctor_raw (ctor_raw State.init 7) 9) 0 1) 0 1
      = ctor_raw (ctor_raw State.init 7) 9 ∧
    swap (ctor_raw (ctor_raw State.init 7) 9) 0 1
      = swap (ctor_raw (ctor_raw State.init 7) 9) 1 0 :=
  have h := C20_swap_is_an_involution (ctor_raw (ctor_raw State.init 7) 9) 0 1 (by decide)
    (by decide)
  ⟨by decide, by decide, h.1, h.2.2.2.1⟩

/-! ## Frame property of the handle operations -/

/-- The targets after an acquire of `x` followed by a release of `y`, at a target that is
neither acquired nor released. -/
theorem bind_ptr.effect_obj_frame (s : State) (x y t : Ptr) (hx : x = nullptr ∨ t ≠ x)
    (hy : y = nullptr ∨ t ≠ y) :
    (unbind (bind_ptr.bind s x).1 { m_ptr := y }).obj t = s.obj t := by
  have h1 : (bind_ptr.bind s x).1.obj t = s.obj t := by
    by_cases e : x = nullptr
    · rw [bind_ptr.bind_of_eq s x e]
    · rcases hx with hx | hx
      · exact absurd hx e
      · rw [bind_ptr.bind_of_ne s x e, RefCountBase.bind_ptr_obj, if_neg hx]
  by_cases e : y = nullptr
  · rw [unbind_of_eq _ { m_ptr := y } e, h1]
  · rcases hy with hy | hy
    · exact absurd hy e
    · rw [unbind_of_ne _ { m_ptr := y } e, RefCountBase.unbind_ptr_obj, if_neg hy, h1]

theorem bind_ptr.effect_acquire_only (s : State) (x : Ptr) :
    unbind (bind_ptr.bind s x).1 { m_ptr := nullptr } = (bind_ptr.bind s x).1 :=
  unbind_of_eq _ { m_ptr := nullptr } rfl

theorem bind_ptr.effect_release_only (s : State) (y : Ptr) :
    unbind (bind_ptr.bind s nullptr).1 { m_ptr := y } = unbind s { m_ptr := y } := by
  rw [bind_ptr.bind_of_eq s nullptr rfl]

theorem bind_ptr.effect_nothing (s : State) :
    unbind (bind_ptr.bind s nullptr).1 { m_ptr := nullptr } = s := by
  rw [effect_acquire_only, bind_ptr.bind_of_eq s nullptr rfl]

theorem State.load_store_null (s : State) (self p : Nat) :
    (s.store p nullptr).load self = if self = p then nullptr else s.load self := by
  by_cases e : self = p
  · subst e
    rw [if_pos rfl]
    by_cases hlt : self < s.handles.length
    · exact s.load_store_same self nullptr hlt
    · have hset : s.handles.set self (some { m_ptr := nullptr }) = s.handles :=
        List.set_eq_of_length_le (Nat.le_of_not_lt hlt)
      simp [State.load, State.store, hset, List.getElem?_eq_none (Nat.le_of_not_lt hlt)]
  · rw [if_neg e]
    exact s.load_store_other p self nullptr (Ne.symm e)

/-- Targets and call log after an operation: those after one `bind` of the acquired reference
followed by one `unbind` of the released reference. -/
theorem Op.run_effect (s : State) (op : Op) :
    (op.run s).obj
      = (unbind (bind_ptr.bind s (op.acquired s)).1 { m_ptr := op.released s }).obj ∧
    (op.run s).calls
      = (unbind (bind_ptr.bind s (op.acquired s)).1 { m_ptr := op.released s }).calls := by
  refine ⟨?_, ?_⟩ <;> cases op <;>
    simp only [Op.run, Op.acquired, Op.released, effect_nothing, effect_acquire_only,
      effect_release_only, assign_copy_eq, assign_move_eq, reset_eq, reset_raw_eq,
      dtor_eq_handles, State.load_store_null] <;>
    rfl

/-- The reference an operation acquires is null or among its operand targets. -/
theorem Op.acquired_mem (s : State) (op : Op) :
    op.acquired s = nullptr ∨ op.acquired s ∈ op.operandTargets s := by
  cases op <;> simp [Op.acquired, Op.operandTargets]

/-- The reference an operation releases is null or among its operand targets. -/
theorem Op.released_mem (s : State) (op : Op) :
    op.released s = nullptr ∨ op.released s ∈ op.operandTargets s := by
  cases op with
  | assign_move self p =>
    by_cases e : self = p <;> simp [Op.released, Op.operandTargets, e]
  | _ => simp [Op.released, Op.operandTargets]

/-- An operation leaves the storage of every existing handle that is not an operand as it
was. -/
theorem Op.run_handles_frame (s : State) (op : Op) (k : Nat) (hk : k ∉ op.operandHandles)
    (hlt : k < s.handles.length) : (op.run s).handles[k]? = s.handles[k]? := by
  cases op with
  | ctor_default =>
    show (s.handles ++ [_])[k]? = _
    rw [List.getElem?_append_left hlt]
  | ctor_raw p =>
    show ((bind_ptr.bind s p).1.handles ++ [_])[k]? = _
    rw [bind_handles, List.getElem?_append_left hlt]
  | ctor_copy p =>
    show ((bind_ptr.bind s (s.load p)).1.handles ++ [_])[k]? = _
    rw [bind_handles, List.getElem?_append_left hlt]
  | assign_copy self p =>
    simp only [Op.operandHandles, List.mem_cons, List.mem_singleton, not_or,
      List.not_mem_nil, or_false] at hk
    simp only [Op.run, assign_copy_eq]
    rw [List.getElem?_set_ne (Ne.symm hk.1)]
  | ctor_move p =>
    simp only [Op.operandHandles, List.mem_singleton] at hk
    show ((s.handles.set p _) ++ [_])[k]? = _
    rw [List.getElem?_append_left (by simpa using hlt), List.getElem?_set_ne (Ne.symm hk)]
  | assign_move self p =>
    simp only [Op.operandHandles, List.mem_cons, List.mem_singleton, not_or,
      List.not_mem_nil, or_false] at hk
    simp only [Op.run, assign_move_eq]
    rw [List.getElem?_set_ne (Ne.symm hk.1), List.getElem?_set_ne (Ne.symm hk.2)]
  | move p =>
    simp only [Op.operandHandles, List.mem_singleton] at hk
    show ((s.handles.set p _) ++ [_])[k]? = _
    rw [List.getElem?_append_left (by simpa using hlt), List.getElem?_set_ne (Ne.symm hk)]
  | reset self =>
    simp only [Op.operandHandles, List.mem_singleton] at hk
    simp only [Op.run, reset_eq]
    rw [List.getElem?_set_ne (Ne.symm hk)]
  | reset_raw self p =>
    simp only [Op.operandHandles, List.mem_singleton] at hk
    simp only [Op.run, reset_raw_eq]
    rw [List.getElem?_set_ne (Ne.symm hk)]
  | swap self p =>
    simp only [Op.operandHandles, List.mem_cons, List.mem_singleton, not_or,
      List.not_mem_nil, or_false] at hk
    show ((s.handles.set self _).set p _)[k]? = _
    rw [List.getElem?_set_ne (Ne.symm hk.2), List.getElem?_set_ne (Ne.symm hk.1)]
  | swap_friend a b =>
    simp only [Op.operandHandles, List.mem_cons, List.mem_singleton, not_or,
      List.not_mem_nil, or_false] at hk
    show ((s.handles.set a _).set b _)[k]? = _
    rw [List.getElem?_set_ne (Ne.symm hk.2), List.getElem?_set_ne (Ne.symm hk.1)]
  | dtor self =>
    simp only [Op.operandHandles, List.mem_singleton] at hk
    simp only [Op.run, dtor_eq_handles]
    rw [List.getElem?_set_ne (Ne.symm hk)]

/-- C19: every handle operation makes at most one acquire and at most one release, each on a
target held by an operand handle or passed as the raw-reference argument; the targets end as
after those calls, so every other target keeps its count and liveness; and every existing
handle that is not an operand keeps its held reference. -/
theorem C19_frame_of_handle_operations (s : State) (op : Op) :
    (op.acquired s = nullptr ∨ op.acquired s ∈ op.operandTargets s) ∧
    (op.released s = nullptr ∨ op.released s ∈ op.operandTargets s) ∧
    (op.run s).calls = s.calls ++ acquireCalls (op.acquired s) ++ releaseCalls (op.released s) ∧
    (op.run s).obj
      = (unbind (bind_ptr.bind s (op.acquired s)).1 { m_ptr := op.released s }).obj ∧
    (∀ t, t ∉ op.operandTargets s →
      (op.run s).obj t = s.obj t ∧ (op.run s).count t = s.count t ∧
      (op.run s).alive t = s.alive t) ∧
    (∀ k, k ∉ op.operandHandles → k < s.handles.length →
      (op.run s).get k = s.get k ∧ (op.run s).isHandle k = s.isHandle k) := by
  obtain ⟨hobj, hcalls⟩ := Op.run_effect s op
  have hacq := Op.acquired_mem s op
  have hrel := Op.released_mem s op
  refine ⟨hacq, hrel, ?_, hobj, ?_, ?_⟩
  · rw [hcalls]
    exact effect_calls s _ _
  · intro t ht
    have hx : op.acquired s = nullptr ∨ t ≠ op.acquired s := by
      rcases hacq with h | h
      · exact Or.inl h
      · exact Or.inr (fun e => ht (e ▸ h))
    have hy : op.released s = nullptr ∨ t ≠ op.released s := by
      rcases hrel with h | h
      · exact Or.inl h
      · exact Or.inr (fun e => ht (e ▸ h))
    have h : (op.run s).obj t = s.obj t := by
      rw [hobj]
      exact effect_obj_frame s _ _ t hx hy
    exact ⟨h, by simp only [State.count, h], by simp only [State.alive, h]⟩
  · intro k hk hlt
    have h := Op.run_handles_frame s op k hk hlt
    exact ⟨by simp only [State.get_eq_load, State.load, h], by simp only [State.isHandle, h]⟩

/-- Witness for C19: with handles on targets `7`, `9` and `11`, the first is assigned the
second; target `11` and the third handle are untouched. -/
theorem C19_frame_of_handle_operations_witness :
    (11 : Ptr) ∉ (Op.assign_copy 0 1).operandTargets
      (ctor_raw (ctor_raw (ctor_raw State.init 7) 9) 11) ∧
    (2 : Nat) ∉ (Op.assign_copy 0 1).operandHandles ∧
    ((Op.assign_copy 0 1).run (ctor_raw (ctor_raw (ctor_raw State.init 7) 9) 11)).count 11
      = (ctor_raw (ctor_raw (ctor_raw State.init 7) 9) 11).count 11 ∧
    ((Op.assign_copy 0 1).run (ctor_raw (ctor_raw (ctor_raw State.init 7) 9) 11)).get 2
      = (ctor_raw (ctor_raw (ctor_raw State.init 7) 9) 11).get 2 :=
  have h := C19_frame_of_handle_operations (ctor_raw (ctor_raw (ctor_raw State.init 7) 9) 11)
    (Op.assign_copy 0 1)
  ⟨by decide, by decide, (h.2.2.2.2.1 11 (by decide)).2.1,
    (h.2.2.2.2.2 2 (by decide) (by decide)).1⟩

/-! ## Concurrent release on the atomic counted base -/

theorem AtomicRefCountBase.pre_decrement_snd (o : AtomicRefCountBase) :
    o.pre_decrement.2 = (o.m_ref_count + (ULONG_RANGE - 1)) % ULONG_RANGE := by
  cases o
  rfl

theorem AtomicRefCountBase.pre_decrement_count (o : AtomicRefCountBase) :
    o.pre_decrement.1.m_ref_count = (o.m_ref_count + (ULONG_RANGE - 1)) % ULONG_RANGE := by
  cases o
  rfl

theorem AtomicRefCountBase.pre_decrement_deleted (o : AtomicRefCountBase) :
    o.pre_decrement.1.deleted = o.deleted := by
  cases o
  rfl

theorem AtomicSystem.start_Inv (n : Nat) (hn : 1 ≤ n) : (AtomicSystem.start n).Inv n := by
  have hne : ¬ n = 0 := by omega
  refine ⟨by simp [AtomicSystem.start], ?_, ?_, ?_, ?_⟩
  · simp [AtomicSystem.start, AtomicSystem.decrementedCount, List.countP_replicate,
      UnbindCall.hasDecremented]
  · simp [AtomicSystem.start, AtomicSystem.zeroObservers, List.countP_replicate,
      UnbindCall.sawZero, UnbindCall.hasDecremented, hne]
  · simp [AtomicSystem.start, AtomicSystem.deleters, List.countP_replicate]
  · intro c hc
    have e : c = { pc := Pc.entry, observed := 0, deleter := false } :=
      List.eq_of_mem_replicate hc
    subst e
    simp

/-- A thread that has not returned has not executed `delete this`. -/
theorem AtomicSystem.not_deleter_of_not_returned (pc : Pc) (obs : Nat) (del : Bool)
    (hpc : pc ≠ Pc.returned)
    (hc : ({ pc := pc, observed := obs, deleter := del } : UnbindCall).deleter = true ↔
      (({ pc := pc, observed := obs, deleter := del } : UnbindCall).pc = Pc.returned ∧
        ({ pc := pc, observed := obs, deleter := del } : UnbindCall).observed = 0)) :
    del = false := by
  cases del with
  | false => rfl
  | true => exact absurd (hc.mp rfl).1 hpc

/-- The invariant after one thread's record was replaced, from the three counts. -/
theorem AtomicSystem.Inv_of_set (n : Nat) (sys : AtomicSystem) (i : Nat) (old new : UnbindCall)
    (tgt : AtomicRefCountBase) (hlen : sys.threads.length = n)
    (hflag : ∀ c ∈ sys.threads, (c.deleter = true ↔ (c.pc = Pc.returned ∧ c.observed = 0)))
    (hx : sys.threads[i]? = some old)
    (hnew : new.deleter = true ↔ (new.pc = Pc.returned ∧ new.observed = 0))
    (hD : tgt.m_ref_count + (sys.decrementedCount + (if new.hasDecremented = true then 1 else 0))
      = n + (if old.hasDecremented = true then 1 else 0))
    (hZ : sys.zeroObservers + (if new.sawZero = true then 1 else 0)
      = (if tgt.m_ref_count = 0 then 1 else 0) + (if old.sawZero = true then 1 else 0))
    (hL : tgt.deleted + (if old.deleter = true then 1 else 0)
      = sys.deleters + (if new.deleter = true then 1 else 0)) :
    AtomicSystem.Inv n { target := tgt, threads := sys.threads.set i new } := by
  have cD := countP_set_add UnbindCall.hasDecremented sys.threads i old new hx
  have cZ := countP_set_add UnbindCall.sawZero sys.threads i old new hx
  have cL := countP_set_add (fun c : UnbindCall => c.deleter) sys.threads i old new hx
  beta_reduce at cL
  simp only [AtomicSystem.decrementedCount, AtomicSystem.zeroObservers,
    AtomicSystem.deleters] at hD hZ hL
  refine ⟨by simpa using hlen, ?_, ?_, ?_, ?_⟩
  · show tgt.m_ref_count + (sys.threads.set i new).countP UnbindCall.hasDecremented = n
    omega
  · show (sys.threads.set i new).countP UnbindCall.sawZero
      = if tgt.m_ref_count = 0 then 1 else 0
    omega
  · show tgt.deleted = (sys.threads.set i new).countP (fun c : UnbindCall => c.deleter)
    omega
  · intro d hd
    rcases List.mem_or_eq_of_mem_set hd with hd | hd
    · exact hflag d hd
    · rw [hd]
      exact hnew

theorem UnbindCall.hasDecremented_entry (o : Nat) (d : Bool) :
    UnbindCall.hasDecremented ⟨Pc.entry, o, d⟩ = false := rfl

theorem UnbindCall.hasDecremented_decremented (o : Nat) (d : Bool) :
    UnbindCall.hasDecremented ⟨Pc.decremented, o, d⟩ = true := rfl

theorem UnbindCall.hasDecremented_returned (o : Nat) (d : Bool) :
    UnbindCall.hasDecremented ⟨Pc.returned, o, d⟩ = true := rfl

theorem UnbindCall.sawZero_entry (o : Nat) (d : Bool) :
    UnbindCall.sawZero ⟨Pc.entry, o, d⟩ = false := rfl

theorem UnbindCall.sawZero_decremented (o : Nat) (d : Bool) :
    UnbindCall.sawZero ⟨Pc.decremented, o, d⟩ = decide (o = 0) := rfl

theorem UnbindCall.sawZero_returned (o : Nat) (d : Bool) :
    UnbindCall.sawZero ⟨Pc.returned, o, d⟩ = decide (o = 0) := rfl

/-- One step of one thread preserves the invariant. -/
theorem AtomicSystem.step_Inv (n : Nat) (hb : n < ULONG_RANGE) (sys : AtomicSystem)
    (i : Nat) (h : sys.Inv n) : (sys.step i).Inv n := by
  obtain ⟨hlen, hcnt, hzero, hdel, hflag⟩ := h
  unfold AtomicSystem.step
  rcases hx : sys.threads[i]? with _ | c
  · exact ⟨hlen, hcnt, hzero, hdel, hflag⟩
  · have hmem : c ∈ sys.threads := List.getElem?_mem hx
    have hc := hflag c hmem
    obtain ⟨pc, obs, del⟩ := c
    simp only
    cases pc with
    | entry =>
      have hdelF := AtomicSystem.not_deleter_of_not_returned Pc.entry obs del (by decide) hc
      subst hdelF
      have cD := countP_set_add UnbindCall.hasDecremented sys.threads i ⟨Pc.entry, obs, false⟩
        ⟨Pc.decremented, 0, false⟩ hx
      have hle := List.countP_le_length UnbindCall.hasDecremented
        (l := sys.threads.set i ⟨Pc.decremented, 0, false⟩)
      simp only [UnbindCall.hasDecremented_entry, UnbindCall.hasDecremented_decremented,
        if_true, Bool.false_eq_true, if_false, Nat.add_zero, List.length_set] at cD hle
      simp only [AtomicSystem.decrementedCount] at hcnt
      have hm1 : 1 ≤ sys.target.m_ref_count := by omega
      have hm2 : sys.target.m_ref_count < ULONG_RANGE := by omega
      have hdec := decr_mod _ hm1 hm2
      have hz0 : ¬ sys.target.m_ref_count = 0 := by omega
      rw [if_neg hz0] at hzero
      apply AtomicSystem.Inv_of_set n sys i ⟨Pc.entry, obs, false⟩
        ⟨Pc.decremented, sys.target.pre_decrement.2, false⟩ sys.target.pre_decrement.1
        hlen hflag hx
      · simp only [Bool.false_eq_true, false_iff, not_and]
        intro hret
        exact absurd hret (by decide)
      · simp only [UnbindCall.hasDecremented_entry, UnbindCall.hasDecremented_decremented,
          AtomicRefCountBase.pre_decrement_count, hdec, AtomicSystem.decrementedCount,
          if_true, Bool.false_eq_true, if_false]
        omega
      · simp only [UnbindCall.sawZero_entry, UnbindCall.sawZero_decremented,
          AtomicRefCountBase.pre_decrement_count, AtomicRefCountBase.pre_decrement_snd, hdec,
          hzero, decide_eq_true_eq, Bool.false_eq_true, if_false, Nat.zero_add, Nat.add_zero]
      · simp only [AtomicRefCountBase.pre_decrement_deleted, Bool.false_eq_true, if_false,
          Nat.add_zero]
        exact hdel
    | decremented =>
      have hdelF := AtomicSystem.not_deleter_of_not_returned Pc.decremented obs del
        (by decide) hc
      subst hdelF
      by_cases hobs : obs = 0
      · subst hobs
        simp only [if_true]
        apply AtomicSystem.Inv_of_set n sys i ⟨Pc.decremented, 0, false⟩
          ⟨Pc.returned, 0, true⟩ sys.target.delete_this hlen hflag hx
        · simp only [and_self]
        · simp only [UnbindCall.hasDecremented_returned,
            UnbindCall.hasDecremented_decremented, if_true]
          show sys.target.m_ref_count + (sys.decrementedCount + 1) = n + 1
          omega
        · simp only [UnbindCall.sawZero_returned, UnbindCall.sawZero_decremented,
            decide_True, if_true]
          show sys.zeroObservers + 1 = (if sys.target.m_ref_count = 0 then 1 else 0) + 1
          omega
        · simp only [Bool.false_eq_true, if_false, if_true, Nat.add_zero]
          show sys.target.deleted + 1 = sys.deleters + 1
          omega
      · simp only [hobs, if_false]
        apply AtomicSystem.Inv_of_set n sys i ⟨Pc.decremented, obs, false⟩
          ⟨Pc.returned, obs, false⟩ sys.target hlen hflag hx
        · simp only [Bool.false_eq_true, hobs, and_false]
        · simp only [UnbindCall.hasDecremented_returned,
            UnbindCall.hasDecremented_decremented, if_true]
          omega
        · simp only [UnbindCall.sawZero_returned, UnbindCall.sawZero_decremented, hobs,
            decide_False, Bool.false_eq_true, if_false, Nat.add_zero]
          exact hzero
        · simp only [Bool.false_eq_true, if_false, Nat.add_zero]
          exact hdel
    | returned => exact ⟨hlen, hcnt, hzero, hdel, hflag⟩

/-- Every interleaving preserves the invariant. -/
theorem AtomicSystem.run_Inv (n : Nat) (hb : n < ULONG_RANGE) (sched : List Nat) :
    ∀ sys : AtomicSystem, sys.Inv n → (sys.run sched).Inv n := by
  induction sched with
  | nil => exact fun _ h => h
  | cons i rest ih => exact fun sys h => ih (sys.step i) (AtomicSystem.step_Inv n hb sys i h)

/-- A step of thread `j` leaves the record of every other thread as it was. -/
theorem AtomicSystem.step_thread_other (sys : AtomicSystem) (i j : Nat) (hij : j ≠ i) :
    (sys.step j).threads[i]? = sys.threads[i]? := by
  unfold AtomicSystem.step
  rcases hx : sys.threads[j]? with _ | c
  · rfl
  · obtain ⟨pc, obs, del⟩ := c
    cases pc with
    | entry => exact List.getElem?_set_ne hij
    | decremented =>
      simp only
      by_cases hobs : obs = 0
      · rw [if_pos hobs]
        exact List.getElem?_set_ne hij
      · rw [if_neg hobs]
        exact List.getElem?_set_ne hij
    | returned => rfl

/-- A step of thread `j` advances thread `j` by one position; a returned thread stays. -/
theorem AtomicSystem.step_thread_self (sys : AtomicSystem) (j : Nat) (c : UnbindCall)
    (hx : sys.threads[j]? = some c) :
    ∃ c1, (sys.step j).threads[j]? = some c1 ∧ c1.pc.rank = min 2 (c.pc.rank + 1) := by
  have hlt : j < sys.threads.length := (List.getElem?_eq_some.mp hx).1
  unfold AtomicSystem.step
  rw [hx]
  obtain ⟨pc, obs, del⟩ := c
  cases pc with
  | entry => exact ⟨_, List.getElem?_set_self hlt, rfl⟩
  | decremented =>
    simp only
    by_cases hobs : obs = 0
    · rw [if_pos hobs]
      exact ⟨_, List.getElem?_set_self hlt, rfl⟩
    · rw [if_neg hobs]
      exact ⟨_, List.getElem?_set_self hlt, rfl⟩
  | returned => exact ⟨_, hx, rfl⟩

/-- After a schedule, each thread has advanced by the number of its turns, up to returning. -/
theorem AtomicSystem.run_rank (sched : List Nat) (i : Nat) :
    ∀ (sys : AtomicSystem) (c : UnbindCall), sys.threads[i]? = some c →
      ∃ c1, (sys.run sched).threads[i]? = some c1 ∧
        c1.pc.rank = min 2 (c.pc.rank + sched.count i) := by
  induction sched with
  | nil =>
    intro sys c hx
    refine ⟨c, hx, ?_⟩
    cases hpc : c.pc <;> simp [Pc.rank]
  | cons j rest ih =>
    intro sys c hx
    by_cases e : j = i
    · subst e
      obtain ⟨c1, h1, r1⟩ := AtomicSystem.step_thread_self sys j c hx
      obtain ⟨c2, h2, r2⟩ := ih (sys.step j) c1 h1
      refine ⟨c2, h2, ?_⟩
      rw [r2, r1, List.count_cons_self]
      omega
    · have h1 : (sys.step j).threads[i]? = some c := by
        rw [AtomicSystem.step_thread_other sys i j e]
        exact hx
      obtain ⟨c2, h2, r2⟩ := ih (sys.step j) c h1
      refine ⟨c2, h2, ?_⟩
      rw [r2, List.count_cons_of_ne (fun h => e h.symm)]

theorem Pc.eq_returned_of_rank (p : Pc) (h : p.rank = 2) : p = Pc.returned := by
  cases p <;> simp [Pc.rank] at h ⊢

/-- Two consecutive steps of a thread at entry are one uninterrupted call of `unbind_ptr`. -/
theorem AtomicSystem.step_step_target (sys : AtomicSystem) (i : Nat) (c : UnbindCall)
    (hx : sys.threads[i]? = some c) (hpc : c.pc = Pc.entry) :
    ((sys.step i).step i).target = sys.target.unbind_ptr := by
  have hlt : i < sys.threads.length := (List.getElem?_eq_some.mp hx).1
  obtain ⟨pc, obs, del⟩ := c
  simp only at hpc
  subst hpc
  have h1 : sys.step i = ⟨sys.target.pre_decrement.1,
      sys.threads.set i ⟨Pc.decremented, sys.target.pre_decrement.2, del⟩⟩ := by
    simp only [AtomicSystem.step, hx]
  rw [h1]
  simp only [AtomicSystem.step, List.getElem?_set_self hlt, AtomicRefCountBase.unbind_ptr]
  by_cases z : sys.target.pre_decrement.2 = 0
  · rw [if_pos z, if_pos z]
  · rw [if_neg z, if_neg z]

/-- When each of the `n` threads takes exactly its two steps, in any interleaving, every
thread has returned at the end. -/
theorem AtomicSystem.allReturned_of_complete (n : Nat) (hn : 1 ≤ n) (hb : n < ULONG_RANGE)
    (sched : List Nat) (hs : List.Perm sched (List.range n ++ List.range n)) :
    ((AtomicSystem.start n).run sched).allReturned = true := by
  have hinv := AtomicSystem.run_Inv n hb sched _ (AtomicSystem.start_Inv n hn)
  have hlen := hinv.1
  unfold AtomicSystem.allReturned
  rw [List.all_eq_true]
  intro c hc
  obtain ⟨i, hi⟩ := List.mem_iff_getElem?.mp hc
  have hlt : i < n := by
    have := (List.getElem?_eq_some.mp hi).1
    omega
  have hcount : sched.count i = 2 := by
    rw [hs.count_eq, List.count_append,
      List.count_eq_one_of_mem (List.nodup_range n) (List.mem_range.mpr hlt)]
  have hstart : (AtomicSystem.start n).threads[i]?
      = some ⟨Pc.entry, 0, false⟩ := by
    simp [AtomicSystem.start, hlt]
  obtain ⟨c1, h1, r1⟩ := AtomicSystem.run_rank sched i (AtomicSystem.start n) _ hstart
  rw [hi] at h1
  have hcc : c = c1 := Option.some.inj h1
  rw [← hcc, hcount] at r1
  have h2 : c.pc.rank = 2 := by
    rw [r1]
    rfl
  simpa using Pc.eq_returned_of_rank c.pc h2

/-- C15: a target of the atomic counted base has count `n >= 1` and `n` threads each call
release-or-destroy on it (an atomic pre-decrement, then `delete this` if it returned zero).
Under every interleaving the target is never deleted twice; once every thread has returned it
has been deleted exactly once, by the one thread whose pre-decrement returned zero; and every
interleaving in which each thread takes its two steps ends with every thread returned. With
count 2 and two threads, the first complete call leaves count 1 and the target alive, the
second leaves count 0 and the target deleted once. -/
theorem C15_atomic_release_destroys_exactly_once (n : Nat) (hn : 1 ≤ n)
    (hb : n < ULONG_RANGE) (sched : List Nat) :
    ((AtomicSystem.start n).run sched).target.deleted ≤ 1 ∧
    (((AtomicSystem.start n).run sched).allReturned = true →
      ((AtomicSystem.start n).run sched).target.deleted = 1 ∧
      ((AtomicSystem.start n).run sched).target.m_ref_count = 0 ∧
      ((AtomicSystem.start n).run sched).deleters = 1 ∧
      ((AtomicSystem.start n).run sched).zeroObservers = 1 ∧
      (∀ c ∈ ((AtomicSystem.start n).run sched).threads,
        (c.deleter = true ↔ c.observed = 0))) ∧
    (List.Perm sched (List.range n ++ List.range n) →
      ((AtomicSystem.start n).run sched).allReturned = true) ∧
    (∀ (sys : AtomicSystem) (i : Nat) (c : UnbindCall), sys.threads[i]? = some c →
      c.pc = Pc.entry → ((sys.step i).step i).target = sys.target.unbind_ptr) ∧
    AtomicRefCountBase.fresh.bind_ptr.bind_ptr = { m_ref_count := 2, deleted := 0 } ∧
    ((AtomicSystem.start 2).run [0, 0]).target = { m_ref_count := 1, deleted := 0 } ∧
    ((AtomicSystem.start 2).run [0, 0, 1, 1]).target = { m_ref_count := 0, deleted := 1 } := by
  have hinv := AtomicSystem.run_Inv n hb sched _ (AtomicSystem.start_Inv n hn)
  obtain ⟨hlen, hcnt, hzero, hdel, hflag⟩ := hinv
  have hmono : ((AtomicSystem.start n).run sched).deleters
      ≤ ((AtomicSystem.start n).run sched).zeroObservers := by
    apply List.countP_mono_left
    intro c hc hd
    obtain ⟨h1, h2⟩ := (hflag c hc).mp hd
    simp [UnbindCall.sawZero, UnbindCall.hasDecremented, h1, h2]
  refine ⟨?_, ?_, AtomicSystem.allReturned_of_complete n hn hb sched, ?_, by decide, by decide,
    by decide⟩
  · rw [hdel]
    have : ((AtomicSystem.start n).run sched).zeroObservers ≤ 1 := by
      rw [hzero]
      split <;> omega
    omega
  · intro hall
    unfold AtomicSystem.allReturned at hall
    rw [List.all_eq_true] at hall
    have hret : ∀ c ∈ ((AtomicSystem.start n).run sched).threads, c.pc = Pc.returned := by
      intro c hc
      simpa using hall c hc
    have hD : ((AtomicSystem.start n).run sched).decrementedCount = n := by
      have hall2 : List.countP UnbindCall.hasDecremented
          ((AtomicSystem.start n).run sched).threads
          = ((AtomicSystem.start n).run sched).threads.length := by
        apply List.countP_eq_length.mpr
        intro c hc
        simp [UnbindCall.hasDecremented, hret c hc]
      show List.countP UnbindCall.hasDecremented
        ((AtomicSystem.start n).run sched).threads = n
      rw [hall2, hlen]
    have hm : ((AtomicSystem.start n).run sched).target.m_ref_count = 0 := by omega
    rw [hm, if_pos rfl] at hzero
    have hsame : ((AtomicSystem.start n).run sched).deleters
        = ((AtomicSystem.start n).run sched).zeroObservers := by
      apply List.countP_congr
      intro c hc
      rw [hflag c hc]
      simp [UnbindCall.sawZero, UnbindCall.hasDecremented, hret c hc]
    refine ⟨by omega, hm, by omega, hzero, ?_⟩
    intro c hc
    rw [hflag c hc]
    simp [hret c hc]
  · intro sys i c hx hpc
    exact AtomicSystem.step_step_target sys i c hx hpc

/-- Witness for C15: count 2 and two threads, interleaved as thread 0, thread 1, thread 1,
thread 0. -/
theorem C15_atomic_release_destroys_exactly_once_witness :
    (1 : Nat) ≤ 2 ∧ 2 < ULONG_RANGE ∧
    List.Perm [0, 1, 1, 0] (List.range 2 ++ List.range 2) ∧
    ((AtomicSystem.start 2).run [0, 1, 1, 0]).allReturned = true ∧
    ((AtomicSystem.start 2).run [0, 1, 1, 0]).target.deleted = 1 ∧
    ((AtomicSystem.start 2).run [0, 1, 1, 0]).target.m_ref_count = 0 :=
  have h := C15_atomic_release_destroys_exactly_once 2 (by decide) (by decide) [0, 1, 1, 0]
  ⟨by decide, by decide, by decide, h.2.2.1 (by decide),
    (h.2.1 (h.2.2.1 (by decide))).1, (h.2.1 (h.2.2.1 (by decide))).2.1⟩

end realm.util
